import Mathlib

/-
  Verification development for the ts-potrace repository (stacksjs/ts-potrace).

  Shallow embedding conventions:
  * JavaScript numbers are modelled as ℚ where fractional values can occur and
    as ℤ/ℕ where the code only ever manipulates integers (coordinates, indices,
    histogram counts).  JS doubles are thus idealised as exact rationals; every
    concrete input used in a theorem below is exactly representable as a double
    and small enough that the JS computation incurs no rounding, so the
    idealisation is faithful at those inputs.
  * Reads from a JS typed array (Uint8Array) outside [0, length) produce
    undefined; we model a read as an Option ℕ, none standing for undefined.
    Writes outside the range are dropped, as in JS.
  * Methods that can throw are modelled with Except String.
-/

namespace TsPotrace

/-- utils.ts clamp: Math.min(max, Math.max(min, val)). -/
def clamp (val lo hi : ℚ) : ℚ := min hi (max lo val)

/-- utils.ts clamp specialised to integers (used where the code only sees ints). -/
def clampZ (val lo hi : ℤ) : ℤ := min hi (max lo val)

/-- utils.ts between: val >= min && val <= max (inclusive on both ends). -/
def between (val lo hi : ℚ) : Bool := decide (lo ≤ val) && decide (val ≤ hi)

/-- JS Math.round(x) = floor(x + 1/2). -/
def jsRound (q : ℚ) : ℤ := ⌊q + 1/2⌋

/-- Read of a JS typed array: index outside [0, length) yields undefined (none). -/
def jsGet (l : List ℕ) (i : ℤ) : Option ℕ :=
  if i < 0 then none else l.get? i.toNat

/-- Write to a JS Uint8Array: out-of-range writes are dropped; stored value is
the ToUint8 conversion of the (already clamped, hence in [0,255]) value. -/
def jsSetByte (l : List ℕ) (i : ℤ) (v : ℕ) : List ℕ :=
  if 0 ≤ i ∧ i < l.length then l.set i.toNat v else l

/-- JS truthiness of a typed-array read: undefined and 0 are falsy. -/
def truthy (o : Option ℕ) : Bool :=
  match o with
  | none => false
  | some v => decide (v ≠ 0)

/-- Histogram data held by Bitmap._histogram: 256 counters plus the pixel count
(src/types/Histogram.ts constructor via _collectValuesBitmap). -/
structure HistogramModel where
  counts : ℕ → ℕ
  pixels : ℕ

/-- Bitmap (src/types/Bitmap.ts): width, height, byte data of length
width*height, and the cached histogram (null initially). -/
structure Bitmap where
  width : ℕ
  height : ℕ
  data : List ℕ
  hist : Option HistogramModel

/-- Bitmap.size = w * h. -/
def Bitmap.size (bm : Bitmap) : ℕ := bm.width * bm.height

/-- Bitmap.pointToIndex(x, y) = y * width + x (no bounds check in Bitmap.ts). -/
def Bitmap.pointToIndex (bm : Bitmap) (x y : ℤ) : ℤ := y * bm.width + x

/-- Bitmap.getValueAt(x, y) = this.data[this.pointToIndex(x, y)] (Bitmap.ts:
no bounds check; an index outside [0, size) reads undefined). -/
def Bitmap.getValueAt (bm : Bitmap) (x y : ℤ) : Option ℕ :=
  jsGet bm.data (bm.pointToIndex x y)

/-- The pointToIndex variant of the unnamed duplicate Bitmap class
(src/unnamed/part_002): coordinates are checked with utils.between, which is
inclusive on both ends, so x = width and y = height still pass; failing the
check yields index -1. -/
def Bitmap.pointToIndexChecked (bm : Bitmap) (x y : ℤ) : ℤ :=
  if ¬ (0 ≤ x ∧ x ≤ (bm.width : ℤ)) ∨ ¬ (0 ≤ y ∧ y ≤ (bm.height : ℤ)) then -1
  else (bm.width : ℤ) * y + x

/-- getValueAt of the unnamed duplicate Bitmap class (src/unnamed/part_002). -/
def Bitmap.getValueAtChecked (bm : Bitmap) (x y : ℤ) : Option ℕ :=
  jsGet bm.data (bm.pointToIndexChecked x y)

/-- Histogram._collectValuesBitmap: one counter per byte value, pixels = size. -/
def histogramOfBitmap (bm : Bitmap) : HistogramModel :=
  { counts := fun c => bm.data.count c, pixels := bm.size }

/-- Bitmap.setValueAt(x, y, value): stores clamp(value, 0, 255) (converted to a
byte by the Uint8Array write) at pointToIndex(x, y) and resets the cached
histogram to null. -/
def Bitmap.setValueAt (bm : Bitmap) (x y : ℤ) (value : ℚ) : Bitmap :=
  { bm with
    data := jsSetByte bm.data (bm.pointToIndex x y) (⌊clamp value 0 255⌋.toNat)
    hist := none }

/-- Bitmap.setValueAt(index, value) — the two-argument call shape: stores at the
raw index and resets the cached histogram to null. -/
def Bitmap.setValueAtIndex (bm : Bitmap) (i : ℤ) (value : ℚ) : Bitmap :=
  { bm with
    data := jsSetByte bm.data i (⌊clamp value 0 255⌋.toNat)
    hist := none }

/-- Bitmap.histogram(): returns the cached histogram if present, otherwise
computes one from the current data and caches it.  Returns the histogram
together with the bitmap carrying the updated cache. -/
def Bitmap.histogramCall (bm : Bitmap) : HistogramModel × Bitmap :=
  match bm.hist with
  | some h => (h, bm)
  | none =>
      let h := histogramOfBitmap bm
      (h, { bm with hist := some h })

/-! ### Histogram (src/types/Histogram.ts)

A histogram is represented by its counter function d : ℕ → ℕ (256 bins; the
claims never read outside [0,255]) together with the total pixel count. -/

/-- normalizeMinMax: each bound, when supplied, is Math.round-ed and clamped to
[0,255] (absent bounds default to 0 and 255); throws Invalid range when the
clamped minimum exceeds the clamped maximum. -/
def normalizeMinMax (levelMin levelMax : Option ℚ) : Except String (ℕ × ℕ) :=
  let minLevel : ℤ :=
    match levelMin with
    | some q => clampZ (jsRound q) 0 255
    | none => 0
  let maxLevel : ℤ :=
    match levelMax with
    | some q => clampZ (jsRound q) 0 255
    | none => 255
  if minLevel > maxLevel then .error "Invalid range"
  else .ok (minLevel.toNat, maxLevel.toNat)

/-- Row 1 of the P lookup table of _thresholdingBuildLookupTable: the
cumulative sums P[index(1,j)], built by P[idx+1] = P[idx] + data[i+1]/pixels
starting from the diagonal entry P[1,1] = data[1]/pixels (so level 0 never
contributes). -/
def P1 (d : ℕ → ℕ) (pixels : ℕ) : ℕ → ℚ
  | 0 => 0
  | j+1 => P1 d pixels j + (d (j+1) : ℚ) / (pixels : ℚ)

/-- Row 1 of the S lookup table, S[idx+1] = S[idx] + (i+1) * data[i+1]/pixels. -/
def S1 (d : ℕ → ℕ) (pixels : ℕ) : ℕ → ℚ
  | 0 => 0
  | j+1 => S1 d pixels j + ((j+1 : ℕ) : ℚ) * ((d (j+1) : ℚ) / (pixels : ℚ))

/-- P[i,j]: the diagonal is data[i]/pixels; entries with i < j are derived as
P[1,j] - P[1,i-1] (rows ≥ 2 in the source; row 1 satisfies the same formula
since P[1,0] = 0). -/
def Ptab (d : ℕ → ℕ) (pixels : ℕ) (i j : ℕ) : ℚ :=
  if i = j then (d i : ℚ) / (pixels : ℚ)
  else P1 d pixels j - P1 d pixels (i-1)

/-- S[i,j], same construction as Ptab. -/
def Stab (d : ℕ → ℕ) (pixels : ℕ) (i j : ℕ) : ℚ :=
  if i = j then (i : ℚ) * ((d i : ℚ) / (pixels : ℚ))
  else S1 d pixels j - S1 d pixels (i-1)

/-- H[i,j] = S[i,j]²/P[i,j] when P[i,j] ≠ 0, else 0.  The construction loop
only fills 1 ≤ i < j ≤ 255; every other entry of the Float64Array stays 0
(in particular the diagonal H[e,e], which the variance sum does read). -/
def Htab (d : ℕ → ℕ) (pixels : ℕ) (i j : ℕ) : ℚ :=
  if 1 ≤ i ∧ i < j ∧ j ≤ 255 then
    (if Ptab d pixels i j ≠ 0 then
      Stab d pixels i j * Stab d pixels i j / Ptab d pixels i j
    else 0)
  else 0

/-- The middle and last variance terms of iterateRecursive: for consecutive
thresholds s, e add H[s+1, e], and for the last threshold s add H[s+1, levelMax]. -/
def segmentsVariance (H : ℕ → ℕ → ℚ) (levelMax : ℕ) : List ℕ → ℚ
  | [] => 0
  | [e] => H (e+1) levelMax
  | e₁ :: e₂ :: rest => H (e₁+1) e₂ + segmentsVariance H levelMax (e₂ :: rest)

/-- The variance a candidate threshold tuple receives in iterateRecursive:
H[0+1, first] for the first segment (the source initialises s = 0 regardless
of levelMin), then the middle and last segments. -/
def totalVariance (H : ℕ → ℕ → ℚ) (levelMax : ℕ) (idxs : List ℕ) : ℚ :=
  match idxs with
  | [] => 0
  | e :: _ => H 1 e + segmentsVariance H levelMax idxs

/-- The mutable state closed over by iterateRecursive: maxSig and colorStops. -/
structure ThState where
  maxSig : ℚ
  colorStops : Option (List ℕ)

/-- iterateRecursive of multilevelThresholding.  The source recurses on
previousDepth up to amount; we recurse on remaining = amount - previousDepth,
which the source keeps nonnegative.  At depth amount the candidate replaces the
best when its variance strictly exceeds maxSig; otherwise the loop index i runs
over startingPoint+1 .. levelMax-1, pushing i and recursing with the variance
of the extended tuple. -/
def iterateRecursive (H : ℕ → ℕ → ℚ) (levelMax : ℕ) :
    ℕ → ℕ → ℚ → List ℕ → ThState → ThState
  | 0, _, prevVariance, indexes, st =>
      if prevVariance > st.maxSig then ⟨prevVariance, some indexes⟩ else st
  | r+1, startingPoint, _, indexes, st =>
      (List.range' (startingPoint+1) (levelMax - (startingPoint+1))).foldl
        (fun acc i =>
          iterateRecursive H levelMax r i
            (totalVariance H levelMax (indexes ++ [i])) (indexes ++ [i]) acc)
        st

/-- multilevelThresholding(amount, levelMin, levelMax): normalizes the range,
caps amount at levelMax - levelMin - 2 (Math.floor-ing it first), returns []
when the cap is below 1, and otherwise runs the recursive enumeration starting
from (levelMin, variance 0, empty tuple), returning colorStops or []. -/
def multilevelThresholding (d : ℕ → ℕ) (pixels : ℕ) (amount : ℚ)
    (levelMin levelMax : Option ℚ) : Except String (List ℕ) :=
  match normalizeMinMax levelMin levelMax with
  | .error e => .error e
  | .ok (lmin, lmax) =>
      let amt : ℤ := min ((lmax : ℤ) - (lmin : ℤ) - 2) ⌊amount⌋
      if amt < 1 then .ok []
      else
        let final := iterateRecursive (Htab d pixels) lmax amt.toNat lmin 0 [] ⟨0, none⟩
        .ok (final.colorStops.getD [])

/-- The inner tolerance loop of getDominantColor: starting from (data[i], 1),
for j = 1..tolerance add data[i-j] when i-j ≥ levelMin and data[i+j] when
i+j ≤ levelMax, counting the included bins. -/
def windowAcc (d : ℕ → ℕ) (lmin lmax i tol : ℕ) : ℚ × ℕ :=
  (List.range' 1 tol).foldl
    (fun fc j =>
      let fc1 : ℚ × ℕ :=
        if lmin + j ≤ i then (fc.1 + (d (i - j) : ℚ), fc.2 + 1) else fc
      if i + j ≤ lmax then (fc1.1 + (d (i + j) : ℚ), fc1.2 + 1) else fc1)
    ((d i : ℚ), 1)

/-- One step of getDominantColor's scan: bins with zero own count are skipped;
otherwise the windowed frequency is averaged over the included bin count and
the best value is replaced only on strict improvement. -/
def dominantStep (d : ℕ → ℕ) (lmin lmax tol : ℕ) (best : ℤ × ℚ) (i : ℕ) : ℤ × ℚ :=
  if d i = 0 then best
  else
    let fc := windowAcc d lmin lmax i tol
    let freq := fc.1 / (fc.2 : ℚ)
    if freq > best.2 then ((i : ℤ), freq) else best

/-- getDominantColor(levelMin, levelMax, tolerance): scan i = levelMin..levelMax
with dominantStep starting from (bestVal, bestFreq) = (-1, 0). -/
def getDominantColor (d : ℕ → ℕ) (levelMin levelMax : Option ℚ) (tol : ℕ) :
    Except String ℤ :=
  match normalizeMinMax levelMin levelMax with
  | .error e => .error e
  | .ok (lmin, lmax) =>
      .ok ((List.range' lmin (lmax + 1 - lmin)).foldl (dominantStep d lmin lmax tol) (-1, 0)).1

/-- Stats on the levels of a histogram segment.  stdDev holds the radicand
variance/pixelsInRange; the source stores Math.sqrt of it, which is irrational
in general — no claim inspects this field. -/
structure LevelsStats where
  mean : ℚ
  median : ℕ
  stdDev : ℚ
  unique : ℕ

/-- Stats on pixels per level of a histogram segment. -/
structure PixelsPerLevelStats where
  mean : ℚ
  median : ℕ
  peak : ℕ

/-- The record returned by getStats. -/
structure HistogramStats where
  pixels : ℕ
  levels : LevelsStats
  pixelsPerLevel : PixelsPerLevelStats

/-- The list of bins levelMin..levelMax scanned by getStats. -/
def statsRange (lmin lmax : ℕ) : List ℕ := List.range' lmin (lmax + 1 - lmin)

/-- getStats after range normalization (the caching layer is stateless here:
the cache is only ever filled with the freshly computed value). -/
def getStatsCore (d : ℕ → ℕ) (lmin lmax : ℕ) : HistogramStats :=
  let bins := statsRange lmin lmax
  let pixelsInRange : ℕ := (bins.map d).sum
  let levelsInRange : ℕ := (bins.filter (fun i => decide (0 < d i))).length
  let sum : ℕ := (bins.map (fun i => i * d i)).sum
  let peak : ℕ := (bins.map d).foldl max 0
  let pixelsPerLevel : List ℕ := (bins.filter (fun i => decide (0 < d i))).map d
  let meanValue : ℚ := if 0 < pixelsInRange then (sum : ℚ) / (pixelsInRange : ℚ) else 0
  let variance : ℚ :=
    (bins.map (fun i => if 0 < d i then ((i : ℚ) - meanValue)^2 * (d i : ℚ) else 0)).sum
  let stdDevSq : ℚ := if 0 < pixelsInRange then variance / (pixelsInRange : ℚ) else 0
  let medianPixelIndex : ℕ := pixelsInRange / 2
  let medianLevel : ℕ :=
    ((bins.zip (bins.map (fun i => ((statsRange lmin i).map d).sum))).find?
      (fun p => decide (medianPixelIndex ≤ p.2))).elim 0 (fun p => p.1)
  let sortedPPL := List.insertionSort (fun a b : ℕ => a ≤ b) pixelsPerLevel
  { pixels := pixelsInRange
    levels :=
      { mean := meanValue
        median := medianLevel
        stdDev := stdDevSq
        unique := levelsInRange }
    pixelsPerLevel :=
      { mean := (pixelsInRange : ℚ) / ((if levelsInRange = 0 then 1 else levelsInRange : ℕ) : ℚ)
        median := if sortedPPL.length = 0 then 0 else sortedPPL.getD (sortedPPL.length / 2) 0
        peak := peak } }

/-- getStats(levelMin, levelMax): normalize the range then compute. -/
def getStats (d : ℕ → ℕ) (levelMin levelMax : Option ℚ) : Except String HistogramStats :=
  match normalizeMinMax levelMin levelMax with
  | .error e => .error e
  | .ok (lmin, lmax) => .ok (getStatsCore d lmin lmax)

/-! ### Posterizer (src/Posterizer.ts) -/

/-- The dedup-and-filter pass of _getRanges over a steps array: push item when
it is not yet present and utils.between(item, 0, 255). -/
def stepsFilter (steps : List ℚ) : List ℚ :=
  steps.foldl
    (fun acc item =>
      if ¬ acc.contains item ∧ between item 0 255 then acc ++ [item] else acc)
    []

/-- The sort in _getRanges uses the comparator
((a < b) === lookingForDarkPixels ? 1 : -1): descending for blackOnWhite,
ascending otherwise.  On the deduplicated entries the comparator is a strict
total order, so the JS sort produces exactly the ordered arrangement, which we
model with insertionSort. -/
def jsSortStops (blackOnWhite : Bool) (l : List ℚ) : List ℚ :=
  if blackOnWhite then List.insertionSort (fun a b : ℚ => b ≤ a) l
  else List.insertionSort (fun a b : ℚ => a ≤ b) l

/-- The steps-is-an-array branch of Posterizer._getRanges: dedup + filter the
entries, fall back to [threshold] when none survive, sort toward the
blackOnWhite direction, then unshift the threshold when blackOnWhite and the
first stop is below it, or push it when not blackOnWhite and the last stop is
below it. -/
def getRangesArrayStops (steps : List ℚ) (threshold : ℚ) (blackOnWhite : Bool) :
    List ℚ :=
  let colorStops := stepsFilter steps
  let colorStops := if colorStops.isEmpty then [threshold] else colorStops
  let colorStops := jsSortStops blackOnWhite colorStops
  if blackOnWhite ∧ colorStops.headD 0 < threshold then threshold :: colorStops
  else if ¬ blackOnWhite ∧ colorStops.getLastD 0 < threshold then colorStops ++ [threshold]
  else colorStops

/-- Number.parseFloat(x.toFixed(3)): round to 3 decimal places; toFixed splits
off the sign first, so ties go away from zero. -/
def round3 (q : ℚ) : ℚ :=
  if q < 0 then -((jsRound (-q * 1000) : ℚ) / 1000)
  else (jsRound (q * 1000) : ℚ) / 1000

/-- One layer of the opacity accumulation in Posterizer._pathTags.  A layer of
intensity 0 is skipped (the map returns the empty tag before touching
actualPrevLayersOpacity); otherwise calculatedOpacity is the intensity when
actualPrev is falsy (= 0) or the intensity is 1, and
(actualPrev - intensity) / (actualPrev - 1) otherwise, rounded to 3 decimals,
clamped to [0,1]; then actualPrev += (1 - actualPrev) * calculatedOpacity. -/
def opacityStep (actualPrev thisLayerOpacity : ℚ) : ℚ :=
  if thisLayerOpacity = 0 then actualPrev
  else
    let calculated :=
      if actualPrev = 0 ∨ thisLayerOpacity = 1 then thisLayerOpacity
      else (actualPrev - thisLayerOpacity) / (actualPrev - 1)
    let calculated := clamp (round3 calculated) 0 1
    actualPrev + (1 - actualPrev) * calculated

/-- actualPrevLayersOpacity after a prefix of layers (colorIntensity values). -/
def actualPrevAfter (layers : List ℚ) : ℚ := layers.foldl opacityStep 0

/-! ### Potrace parameters and their validation (utils.ts)

Option objects are loosely typed in JS, so parameter fields are modelled by a
small JS value type; undef doubles as an absent property. -/

/-- A JS value as far as parameter validation observes it. -/
inductive JSVal where
  | undef
  | jsNull
  | jsBool (b : Bool)
  | jsNum (q : ℚ)
  | jsStr (s : String)
deriving DecidableEq

/-- JS truthiness. -/
def JSVal.truthy : JSVal → Bool
  | .undef => false
  | .jsNull => false
  | .jsBool b => b
  | .jsNum q => decide (q ≠ 0)
  | .jsStr s => decide (s ≠ "")

/-- typeof v === number. -/
def JSVal.isNumber : JSVal → Bool
  | .jsNum _ => true
  | _ => false

/-- typeof v === boolean. -/
def JSVal.isBoolean : JSVal → Bool
  | .jsBool _ => true
  | _ => false

/-- v == null (loose equality: null or undefined). -/
def JSVal.isNullish : JSVal → Bool
  | .undef => true
  | .jsNull => true
  | _ => false

/-- typeof v === number && v < bound. -/
def numLT (v : JSVal) (bound : ℚ) : Bool :=
  match v with
  | .jsNum q => decide (q < bound)
  | _ => false

/-- typeof v === number && (v < lo || v > hi). -/
def numOutside (v : JSVal) (lo hi : ℚ) : Bool :=
  match v with
  | .jsNum q => decide (q < lo) || decide (hi < q)
  | _ => false

/-- typeof v === number && between(v, lo, hi). -/
def numBetween (v : JSVal) (lo hi : ℚ) : Bool :=
  match v with
  | .jsNum q => between q lo hi
  | _ => false

/-- Potrace.SUPPORTED_TURNPOLICY_VALUES. -/
def supportedTurnPolicies : List String :=
  ["black", "white", "left", "right", "minority", "majority"]

/-- SUPPORTED_TURNPOLICY_VALUES.includes(v) (false on non-strings). -/
def JSVal.isSupportedTurnPolicy : JSVal → Bool
  | .jsStr s => supportedTurnPolicies.contains s
  | _ => false

/-- The parameter record of the Potrace classes. -/
structure PotraceParams where
  turnPolicy : JSVal
  turdSize : JSVal
  alphaMax : JSVal
  optCurve : JSVal
  optTolerance : JSVal
  threshold : JSVal
  blackOnWhite : JSVal
  color : JSVal
  background : JSVal
  width : JSVal
  height : JSVal
deriving DecidableEq

/-- The defaults installed by both Potrace constructors. -/
def defaultParams : PotraceParams :=
  { turnPolicy := .jsStr "minority"
    turdSize := .jsNum 2
    alphaMax := .jsNum 1
    optCurve := .jsBool true
    optTolerance := .jsNum (1/5)
    threshold := .jsNum (-1)
    blackOnWhite := .jsBool true
    color := .jsStr "auto"
    background := .jsStr "transparent"
    width := .jsNull
    height := .jsNull }

/-- A spread/typeof-guarded merge of one field: options override the current
value when supplied. -/
def mergeParam (cur opt : JSVal) : JSVal := if opt = .undef then cur else opt

/-- newParams = { ...this._params, ...params } in the second Potrace class
(utils.ts, fourth document). -/
def spreadParams (cur opts : PotraceParams) : PotraceParams :=
  { turnPolicy := mergeParam cur.turnPolicy opts.turnPolicy
    turdSize := mergeParam cur.turdSize opts.turdSize
    alphaMax := mergeParam cur.alphaMax opts.alphaMax
    optCurve := mergeParam cur.optCurve opts.optCurve
    optTolerance := mergeParam cur.optTolerance opts.optTolerance
    threshold := mergeParam cur.threshold opts.threshold
    blackOnWhite := mergeParam cur.blackOnWhite opts.blackOnWhite
    color := mergeParam cur.color opts.color
    background := mergeParam cur.background opts.background
    width := mergeParam cur.width opts.width
    height := mergeParam cur.height opts.height }

/-- setParameters of the second Potrace class (utils.ts lines 2319-2354):
merge, then validate turnPolicy, turdSize, alphaMax and threshold on the merged
record.  There is no optCurve check in this validator. -/
def setParametersDoc4 (cur opts : PotraceParams) : Except String PotraceParams :=
  let p := spreadParams cur opts
  if p.turnPolicy.truthy ∧ ¬ p.turnPolicy.isSupportedTurnPolicy then
    .error "Invalid turnPolicy"
  else if numLT p.turdSize 0 then .error "Invalid turdSize"
  else if numOutside p.alphaMax 0 1.3334 then .error "Invalid alphaMax"
  else if p.threshold ≠ .jsNum (-1) ∧ numOutside p.threshold 0 255 then
    .error "Invalid threshold"
  else .ok p

/-- _validateParameters of the first Potrace class (utils.ts lines 1910-1925):
checks turnPolicy (when truthy), threshold (when non-null and not AUTO) and
optCurve (when non-null).  turdSize and alphaMax are not validated. -/
def validateParametersDoc3 (p : PotraceParams) : Except String Unit :=
  if p.turnPolicy.truthy ∧ ¬ p.turnPolicy.isSupportedTurnPolicy then
    .error "Bad turnPolicy value"
  else if ¬ p.threshold.isNullish ∧ p.threshold ≠ .jsNum (-1)
      ∧ (¬ p.threshold.isNumber ∨ ¬ numBetween p.threshold 0 255) then
    .error "Bad threshold value"
  else if ¬ p.optCurve.isNullish ∧ ¬ p.optCurve.isBoolean then
    .error "optCurve must be Boolean"
  else .ok ()

/-- The merge performed by setParameters of the first Potrace class: every
supplied field overrides the current value, except that an unsupported
turnPolicy is silently ignored. -/
def mergeDoc3 (cur opts : PotraceParams) : PotraceParams :=
  { turnPolicy :=
      if opts.turnPolicy ≠ .undef ∧ opts.turnPolicy.isSupportedTurnPolicy then
        opts.turnPolicy
      else cur.turnPolicy
    turdSize := mergeParam cur.turdSize opts.turdSize
    alphaMax := mergeParam cur.alphaMax opts.alphaMax
    optCurve := mergeParam cur.optCurve opts.optCurve
    optTolerance := mergeParam cur.optTolerance opts.optTolerance
    threshold := mergeParam cur.threshold opts.threshold
    blackOnWhite := mergeParam cur.blackOnWhite opts.blackOnWhite
    color := mergeParam cur.color opts.color
    background := mergeParam cur.background opts.background
    width := mergeParam cur.width opts.width
    height := mergeParam cur.height opts.height }

/-- setParameters of the first Potrace class (utils.ts lines 740-806): merge
(ignoring unsupported turnPolicy values), then _validateParameters on the
merged record. -/
def setParametersDoc3 (cur opts : PotraceParams) : Except String PotraceParams :=
  let p := mergeDoc3 cur opts
  match validateParametersDoc3 p with
  | .error e => .error e
  | .ok _ => .ok p

/-! ### The coordinate formatter fixed (utils.ts)

utils.ts contains two fixed functions: the exported one (first document, lines
70-87) and a private one (second document, lines 319-321).  Strings are
modelled as their character lists; helper operations are defined structurally
so that the kernel can evaluate them. -/

/-- The fractional part left-padded to 3 digits. -/
def pad3 (n : ℕ) : List Char :=
  let s := (Nat.repr n).data
  List.replicate (3 - s.length) '0' ++ s

/-- Number.prototype.toFixed(3) for a nonnegative exact rational: the integer n
nearest to q*1000 (ties take the larger n) printed with 3 fractional digits. -/
def toFixed3Nonneg (q : ℚ) : List Char :=
  let n : ℕ := (jsRound (q * 1000)).toNat
  (Nat.repr (n / 1000)).data ++ '.' :: pad3 (n % 1000)

/-- Number.prototype.toFixed(3): ES splits off the sign first ((-x).toFixed for
x < 0, prefixed with a minus). -/
def toFixed3 (q : ℚ) : List Char :=
  if q < 0 then '-' :: toFixed3Nonneg (-q) else toFixed3Nonneg q

/-- The private fixed (utils.ts lines 319-321):
number.toFixed(3).replace('.000', '').  A toFixed(3) result contains '.000'
exactly when its three fraction digits are all 0, in which case the occurrence
is the 4-character suffix, so the first-occurrence replace is suffix
stripping. -/
def fixedPrivate (q : ℚ) : List Char :=
  let s := toFixed3 q
  if ['.', '0', '0', '0'].isSuffixOf s then s.take (s.length - 4) else s

/-- Replace the first '.' by ", " (the exported fixed ends with
formatted.replace('.', ', '); a toFixed result contains at most one dot). -/
def replaceFirstDot : List Char → List Char
  | [] => []
  | c :: rest => if c = '.' then ',' :: ' ' :: rest else c :: replaceFirstDot rest

/-- The exported fixed (utils.ts lines 70-87): toFixed(3), then strip a
trailing ".000", or else a trailing "00", or else a trailing "0", and finally
replace the decimal point with ", ". -/
def fixedExported (q : ℚ) : List Char :=
  let s := toFixed3 q
  let s :=
    if ['.', '0', '0', '0'].isSuffixOf s then s.take (s.length - 4)
    else if ['0', '0'].isSuffixOf s then s.take (s.length - 2)
    else if ['0'].isSuffixOf s then s.take (s.length - 1)
    else s
  replaceFirstDot s

/-! ### Contour decomposition (_bmToPathlist, utils.ts)

utils.ts carries two Potrace implementations: the first (third document, lines
1039-1218) XORs every traced contour; the second (fourth document, lines
2020-2182) XORs a contour only when its area exceeds turdSize.  Both are
modelled below; the contour-tracing loop of findPath is given explicit fuel
since its termination is exactly what is under scrutiny. -/

/-- Bitmap.indexToPoint: utils.between(index, 0, size) is inclusive on both
ends; inside the range y = floor(index/width), x = index - y*width, otherwise
(-1, -1). -/
def Bitmap.indexToPoint (bm : Bitmap) (i : ℤ) : ℤ × ℤ :=
  if 0 ≤ i ∧ i ≤ (bm.size : ℤ) then
    let y := i / (bm.width : ℤ)
    (i - y * (bm.width : ℤ), y)
  else (-1, -1)

/-- findNext(point): starting at pointToIndex(point), scan forward while the
byte is not 1 (reads at negative indices are undefined, hence ≠ 1) and stop at
size; return indexToPoint of the found index or null. -/
def findNext (bm : Bitmap) (p : ℤ × ℤ) : Option (ℤ × ℤ) :=
  let start := bm.pointToIndex p.1 p.2
  match (List.range bm.size).find?
      (fun j => decide (start ≤ (j : ℤ)) && decide (jsGet bm.data (j : ℤ) = some 1)) with
  | some j => some (bm.indexToPoint (j : ℤ))
  | none => none

/-- One ring of the majority vote: for a = -i+1 .. i-1 the four probes around
(x, y), counting +1 for a truthy pixel and -1 otherwise. -/
def majorityCt (bm : Bitmap) (x y : ℤ) (i : ℕ) : ℤ :=
  ((List.range (2*i - 1)).map (fun k => (k : ℤ) - (i : ℤ) + 1)).foldl
    (fun ct a =>
      ct + (if truthy (bm.getValueAt (x + a) (y + (i : ℤ) - 1)) then 1 else -1)
         + (if truthy (bm.getValueAt (x + (i : ℤ) - 1) (y + a - 1)) then 1 else -1)
         + (if truthy (bm.getValueAt (x + a - 1) (y - (i : ℤ))) then 1 else -1)
         + (if truthy (bm.getValueAt (x - (i : ℤ)) (y + a)) then 1 else -1))
    0

/-- majority(x, y): rings i = 2, 3, 4; return 1 on a positive count, 0 on a
negative one, otherwise try the next ring; default 0. -/
def majority (bm : Bitmap) (x y : ℤ) : ℕ :=
  if majorityCt bm x y 2 > 0 then 1
  else if majorityCt bm x y 2 < 0 then 0
  else if majorityCt bm x y 3 > 0 then 1
  else if majorityCt bm x y 3 < 0 then 0
  else if majorityCt bm x y 4 > 0 then 1
  else if majorityCt bm x y 4 < 0 then 0
  else 0

/-- The contour being built by findPath (types/Path.ts defaults: area 0, len 0,
pt [], minX = minY = 100000, maxX = maxY = -1). -/
structure TracePath where
  pt : List (ℤ × ℤ)
  len : ℕ
  area : ℤ
  minX : ℤ
  minY : ℤ
  maxX : ℤ
  maxY : ℤ
  sign : Bool
deriving DecidableEq

/-- The mutable locals of findPath. -/
structure FindPathState where
  x : ℤ
  y : ℤ
  dirx : ℤ
  diry : ℤ
  path : TracePath
deriving DecidableEq

/-- The while(1) loop of findPath: push the point, update the bounding box and
length, advance by the direction, accumulate area -= x*diry, stop on returning
to the origin, else read the left/right probes and turn according to the turn
policy.  The division by 2 is exact: with a unit direction both numerators are
0 or -2. -/
def findPathLoop (bm : Bitmap) (turnPolicy : String) (sign : Bool)
    (origin : ℤ × ℤ) : ℕ → FindPathState → Option TracePath
  | 0, _ => none
  | fuel+1, st =>
      let path := { st.path with
        pt := st.path.pt ++ [(st.x, st.y)]
        maxX := if st.x > st.path.maxX then st.x else st.path.maxX
        minX := if st.x < st.path.minX then st.x else st.path.minX
        maxY := if st.y > st.path.maxY then st.y else st.path.maxY
        minY := if st.y < st.path.minY then st.y else st.path.minY
        len := st.path.len + 1 }
      let x := st.x + st.dirx
      let y := st.y + st.diry
      let path := { path with area := path.area - x * st.diry }
      if x = origin.1 ∧ y = origin.2 then some path
      else
        let l := truthy (bm.getValueAt (x + (st.dirx + st.diry - 1) / 2)
                                       (y + (st.diry - st.dirx - 1) / 2))
        let r := truthy (bm.getValueAt (x + (st.dirx - st.diry - 1) / 2)
                                       (y + (st.diry + st.dirx - 1) / 2))
        let dirs : ℤ × ℤ :=
          if r ∧ ¬ l then
            (if turnPolicy = "right"
                ∨ (turnPolicy = "black" ∧ sign = true)
                ∨ (turnPolicy = "white" ∧ sign = false)
                ∨ (turnPolicy = "majority" ∧ majority bm x y = 1)
                ∨ (turnPolicy = "minority" ∧ ¬ majority bm x y = 1) then
              (-st.diry, st.dirx)
            else (st.diry, -st.dirx))
          else if r then (-st.diry, st.dirx)
          else if ¬ l then (st.diry, -st.dirx)
          else (st.dirx, st.diry)
        findPathLoop bm turnPolicy sign origin fuel ⟨x, y, dirs.1, dirs.2, path⟩

/-- findPath(point): sign from the pixel at the starting point, initial
direction (0, 1), then the traced loop. -/
def findPath (bm : Bitmap) (turnPolicy : String) (fuel : ℕ) (p : ℤ × ℤ) :
    Option TracePath :=
  let sign := truthy (bm.getValueAt p.1 p.2)
  findPathLoop bm turnPolicy sign p fuel
    ⟨p.1, p.2, 0, 1, ⟨[], 0, 0, 100000, 100000, -1, -1, sign⟩⟩

/-- data[indx] = data[indx] ? 0 : 1 — an undefined (out-of-range) read is
falsy and the corresponding write is dropped by the typed array. -/
def jsFlip (l : List ℕ) (i : ℤ) : List ℕ :=
  if truthy (jsGet l i) then jsSetByte l i 0 else jsSetByte l i 1

/-- Flip the byte at (x, y) through pointToIndex. -/
def flipAt (bm : Bitmap) (x y : ℤ) : Bitmap :=
  { bm with data := jsFlip bm.data (bm.pointToIndex x y) }

/-- xorPath(path): walk pt[1..len-1]; whenever the row changes, flip the bytes
at (j, min(y1, y)) for j = x .. path.maxX - 1 and remember the new row. -/
def xorPath (bm : Bitmap) (path : TracePath) : Bitmap :=
  ((path.pt.take path.len).drop 1 |>.foldl
    (fun (acc : Bitmap × ℤ) p =>
      if p.2 ≠ acc.2 then
        let minY := if acc.2 < p.2 then acc.2 else p.2
        let cols := (List.range (path.maxX - p.1).toNat).map (fun k => p.1 + (k : ℤ))
        (cols.foldl (fun b j => flipAt b j minY) acc.1, p.2)
      else acc)
    (bm, (path.pt.headD (0, 0)).2)).1

/-- The blackMap construction of _bmToPathlist for an explicit threshold:
pixels past the threshold (lum > threshold for blackOnWhite, lum < threshold
otherwise) become 0, the rest 1. -/
def blackMapOf (lum : Bitmap) (threshold : ℚ) (blackOnWhite : Bool) : Bitmap :=
  { width := lum.width
    height := lum.height
    data := lum.data.map (fun v =>
      if (if blackOnWhite then decide (threshold < (v : ℚ)) else decide ((v : ℚ) < threshold))
      then 0 else 1)
    hist := none }

/-- The state threaded through the decomposition scan. -/
structure ScanState where
  bm : Bitmap
  currentPoint : ℤ × ℤ
  pathlist : List TracePath

/-- Fuel handed to findPath inside the scan loops; ample for every contour of
the bitmap (only exercised on concrete inputs below). -/
def contourFuel (bm : Bitmap) : ℕ := 4 * bm.size + 8

/-- The scan loop of the second Potrace implementation (utils.ts lines
2165-2182): currentPoint = findNext(...); while found, trace the contour, and
only when path.area > turdSize push it AND xor it away; then look for the next
point starting from the found point.  none = the given iteration budget was
exhausted (the source loop is unbounded). -/
def bmToPathlistDoc4Loop (turnPolicy : String) (turdSize : ℤ) :
    ℕ → ScanState → Option (List TracePath)
  | 0, _ => none
  | fuel+1, st =>
      match findNext st.bm st.currentPoint with
      | none => some st.pathlist
      | some point =>
          match findPath st.bm turnPolicy (contourFuel st.bm) point with
          | none => none
          | some path =>
              let st1 : ScanState :=
                if path.area > turdSize then
                  ⟨xorPath st.bm path, point, st.pathlist ++ [path]⟩
                else ⟨st.bm, point, st.pathlist⟩
              bmToPathlistDoc4Loop turnPolicy turdSize fuel st1

/-- The scan loop of the first Potrace implementation (utils.ts lines
1202-1218): every traced contour is xor-ed away, and it is pushed when its
area exceeds turdSize. -/
def bmToPathlistDoc3Loop (turnPolicy : String) (turdSize : ℤ) :
    ℕ → ScanState → Option (List TracePath)
  | 0, _ => none
  | fuel+1, st =>
      match findNext st.bm st.currentPoint with
      | none => some st.pathlist
      | some point =>
          match findPath st.bm turnPolicy (contourFuel st.bm) point with
          | none => none
          | some path =>
              let bm1 := xorPath st.bm path
              let pl := if path.area > turdSize then st.pathlist ++ [path] else st.pathlist
              bmToPathlistDoc3Loop turnPolicy turdSize fuel ⟨bm1, point, pl⟩

/-- A 3×3 luminance bitmap whose binarization at threshold 128 (blackOnWhite)
has exactly one black pixel, in the center. -/
def c1Lum : Bitmap :=
  ⟨3, 3, [255, 255, 255, 255, 0, 255, 255, 255, 255], none⟩

/-- The blackMap obtained from c1Lum at threshold 128, blackOnWhite. -/
def c1Black : Bitmap := blackMapOf c1Lum 128 true

/-- The scan state at entry of the loops: currentPoint (0,0), empty pathlist. -/
def c1State0 : ScanState := ⟨c1Black, (0, 0), []⟩

/-- The scan state after the first iteration of the second implementation's
loop at turdSize 2: the single-pixel contour has area 1 ≤ 2, so nothing is
xor-ed and only currentPoint advanced to the found pixel (1,1). -/
def c1State1 : ScanState := ⟨c1Black, (1, 1), []⟩

/-- An options object with no property supplied. -/
def emptyOpts : PotraceParams :=
  { turnPolicy := .undef
    turdSize := .undef
    alphaMax := .undef
    optCurve := .undef
    optTolerance := .undef
    threshold := .undef
    blackOnWhite := .undef
    color := .undef
    background := .undef
    width := .undef
    height := .undef }

/-- The five conditions of the validation claim, read as conditions on the
supplied options (a field is either absent or satisfies its condition):
turnPolicy among the six values, turdSize ≥ 0, alphaMax in [0, 1.3334],
threshold −1 or in [0, 255], optCurve boolean. -/
def GoodOpts (opts : PotraceParams) : Prop :=
  (opts.turnPolicy = .undef ∨ opts.turnPolicy.isSupportedTurnPolicy = true)
  ∧ (opts.turdSize = .undef ∨ ∃ q, opts.turdSize = .jsNum q ∧ 0 ≤ q)
  ∧ (opts.alphaMax = .undef ∨ ∃ q, opts.alphaMax = .jsNum q ∧ 0 ≤ q ∧ q ≤ 1.3334)
  ∧ (opts.threshold = .undef ∨ opts.threshold = .jsNum (-1)
      ∨ ∃ q, opts.threshold = .jsNum q ∧ 0 ≤ q ∧ q ≤ 255)
  ∧ (opts.optCurve = .undef ∨ ∃ b, opts.optCurve = .jsBool b)

/-- The window sum the dominant-color claim describes: the bin's own count plus
the counts of up to tolerance bins on each side, clipped to [levelMin,
levelMax] (spec: "for each bin in [min,max], sum counts in a window of
tolerance bins"). -/
def windowSum (d : ℕ → ℕ) (lmin lmax tol i : ℕ) : ℕ :=
  d i + ((List.range' 1 tol).map (fun j =>
    (if lmin + j ≤ i then d (i - j) else 0) + (if i + j ≤ lmax then d (i + j) else 0))).sum

/-- The windowed average getDominantColor actually ranks bins by: the window
total divided by the number of bins included. -/
def windowAvg (d : ℕ → ℕ) (lmin lmax tol i : ℕ) : ℚ :=
  (windowAcc d lmin lmax i tol).1 / ((windowAcc d lmin lmax i tol).2 : ℚ)

/-- A well-formed result of multilevelThresholding with cap amount: strictly
increasing, inside [levelMin+1, levelMax-1], of length amount. -/
def GoodStops (lmin lmax amount : ℕ) (l : List ℕ) : Prop :=
  l.Chain' (· < ·) ∧ (∀ x ∈ l, lmin + 1 ≤ x ∧ x ≤ lmax - 1) ∧ l.length = amount

/-- The invariant on the enumeration state: a recorded candidate is well
formed. -/
def ThStateOk (lmin lmax amount : ℕ) (st : ThState) : Prop :=
  ∀ l, st.colorStops = some l → GoodStops lmin lmax amount l

/-- Loop invariant of getDominantColor's scan after processing the bins below
m: either nothing nonzero was seen and the state is still (-1, 0), or the
state holds the first bin attaining the (strict) maximum windowed average
among the nonzero bins processed so far. -/
def DominantInv (d : ℕ → ℕ) (lmin lmax tol m : ℕ) (st : ℤ × ℚ) : Prop :=
  (st = (-1, 0) ∧ ∀ i, lmin ≤ i → i < m → d i = 0)
  ∨ (∃ b : ℕ, lmin ≤ b ∧ b < m ∧ st.1 = (b : ℤ) ∧ d b ≠ 0
      ∧ st.2 = windowAvg d lmin lmax tol b ∧ 0 < st.2
      ∧ (∀ j, lmin ≤ j → j < m → d j ≠ 0 → windowAvg d lmin lmax tol j ≤ st.2)
      ∧ (∀ j, lmin ≤ j → j < m → d j ≠ 0 → j < b → windowAvg d lmin lmax tol j < st.2))

/-- A concrete histogram: one pixel at level 10, two pixels at level 11. -/
def c7Histogram : ℕ → ℕ := fun c => if c = 10 then 1 else if c = 11 then 2 else 0

/-! ## Theorems -/

/-- C1: the contour-decomposition scan does NOT terminate for every finite
bitmap and turdSize.  On a 3×3 bitmap whose binarization has a single black
center pixel (contour area 1) with the default parameters (turnPolicy
minority, turdSize 2), the scan loop of the second Potrace implementation in
utils.ts (lines 2165-2182) returns no result at ANY iteration budget: the
contour has area 1 ≤ turdSize, so it is neither recorded nor xor-ed away, and
findNext keeps returning the same pixel.  The first implementation (lines
1202-1218), which xor-s every contour, finishes on the same input within two
iterations, with an empty path list.  This confirms the spec's intent ("the
scan terminates because each contour's interior is XOR-ed away") and exhibits
the second implementation as the slip. -/
theorem c1_doc4_scan_diverges_doc3_terminates :
    (∀ fuel, bmToPathlistDoc4Loop "minority" 2 fuel c1State0 = none) ∧
      bmToPathlistDoc3Loop "minority" 2 2 c1State0 = some [] := by
  have key : ∀ n, bmToPathlistDoc4Loop "minority" 2 n c1State1 = none := by
    intro n
    induction n with
    | zero => rfl
    | succ k ih =>
        have step : bmToPathlistDoc4Loop "minority" 2 (k+1) c1State1
            = bmToPathlistDoc4Loop "minority" 2 k c1State1 := rfl
        exact step.trans ih
  refine ⟨?_, by decide⟩
  intro fuel
  cases fuel with
  | zero => rfl
  | succ k =>
      have step : bmToPathlistDoc4Loop "minority" 2 (k+1) c1State0
          = bmToPathlistDoc4Loop "minority" 2 k c1State1 := rfl
      exact step.trans (key k)

/-- C3 counterexample: on a 2×2 bitmap with data [0,0,1,0], reading just past
the right edge at (x,y) = (2,0) — out of [0,width)×[0,height) — returns the
value 1, the pixel (0,1) of the next row, not 0.  The same read through the
bounds-checked variant of src/unnamed/part_002 also returns that pixel, since
utils.between is inclusive at width. -/
theorem c3_oob_read_counterexample :
    (Bitmap.getValueAt ⟨2, 2, [0, 0, 1, 0], none⟩ 2 0 = some 1
      ∧ Bitmap.getValueAt ⟨2, 2, [0, 0, 1, 0], none⟩ 0 1 = some 1)
    ∧ ¬ Bitmap.getValueAt ⟨2, 2, [0, 0, 1, 0], none⟩ 2 0 = some 0
    ∧ Bitmap.getValueAtChecked ⟨2, 2, [0, 0, 1, 0], none⟩ 2 0 = some 1 := by
  decide

/-- C3 amended: getValueAt applies no bounds check on the coordinates, only the
array bounds act: (a) whenever the flat index y*width+x falls outside
[0, size), the read yields undefined (none) — in particular every pair with a
negative flat index, e.g. any (x, y) with y < 0 and x ≤ width; (b) a read just
past the right edge, (width, y), is the same read as (0, y+1) — the first
pixel of the next row, an in-range value whenever y+1 < height. -/
theorem c3_getValueAt_amended (bm : Bitmap) (x y : ℤ)
    (hlen : bm.data.length = bm.size) :
    ((y * bm.width + x < 0 ∨ (bm.size : ℤ) ≤ y * bm.width + x) →
      bm.getValueAt x y = none)
    ∧ bm.getValueAt bm.width y = bm.getValueAt 0 (y + 1) := by
  constructor
  · intro h
    unfold Bitmap.getValueAt Bitmap.pointToIndex jsGet
    rcases h with h | h
    · simp [if_pos h]
    · have hnonneg : ¬ (y * (bm.width : ℤ) + x < 0) := by omega
      rw [if_neg hnonneg]
      apply List.get?_eq_none.mpr
      rw [hlen]
      omega
  · unfold Bitmap.getValueAt Bitmap.pointToIndex
    have : y * (bm.width : ℤ) + (bm.width : ℤ) = (y + 1) * (bm.width : ℤ) + 0 := by ring
    rw [this]

/-- C3 amended, witness: on the 2×2 bitmap [0,0,1,0], the read at (0, -1)
(negative flat index) is undefined, and the read at (2, 0) equals the read at
(0, 1). -/
theorem c3_getValueAt_amended_witness :
    Bitmap.getValueAt ⟨2, 2, [0, 0, 1, 0], none⟩ 0 (-1) = none
    ∧ Bitmap.getValueAt ⟨2, 2, [0, 0, 1, 0], none⟩ 2 0
      = Bitmap.getValueAt ⟨2, 2, [0, 0, 1, 0], none⟩ 0 (0 + 1) := by
  have h := c3_getValueAt_amended ⟨2, 2, [0, 0, 1, 0], none⟩ 0 (-1) (by decide)
  have h2 := c3_getValueAt_amended ⟨2, 2, [0, 0, 1, 0], none⟩ 0 0 (by decide)
  exact ⟨h.1 (by decide), h2.2⟩

/-- C10: after any setValueAt — in either call shape — the next histogram()
call returns the histogram freshly computed from the current pixel data:
setValueAt resets the cache to null, so the cached value can never be stale. -/
theorem c10_histogram_never_stale (bm : Bitmap) (x y i : ℤ) (v w : ℚ) :
    (Bitmap.histogramCall (bm.setValueAt x y v)).1
        = histogramOfBitmap (bm.setValueAt x y v)
    ∧ (Bitmap.histogramCall (bm.setValueAtIndex i w)).1
        = histogramOfBitmap (bm.setValueAtIndex i w) :=
  ⟨rfl, rfl⟩

/-- Characterization of the second implementation's setParameters: it succeeds
iff none of its four checks fire on the merged record. -/
theorem setParametersDoc4_isOk_iff (cur opts : PotraceParams) :
    (setParametersDoc4 cur opts).isOk = true ↔
      (¬ ((spreadParams cur opts).turnPolicy.truthy = true
          ∧ (spreadParams cur opts).turnPolicy.isSupportedTurnPolicy = false)
       ∧ numLT (spreadParams cur opts).turdSize 0 = false
       ∧ numOutside (spreadParams cur opts).alphaMax 0 1.3334 = false
       ∧ ¬ ((spreadParams cur opts).threshold ≠ .jsNum (-1)
          ∧ numOutside (spreadParams cur opts).threshold 0 255 = true)) := by
  simp only [setParametersDoc4]
  split_ifs with h1 h2 h3 h4 <;>
    simp_all [Except.isOk, Except.toBool]

/-- Characterization of _validateParameters (first implementation): it succeeds
iff none of its three checks fire. -/
theorem validateParametersDoc3_isOk_iff (p : PotraceParams) :
    (validateParametersDoc3 p).isOk = true ↔
      (¬ (p.turnPolicy.truthy = true ∧ p.turnPolicy.isSupportedTurnPolicy = false)
       ∧ ¬ (p.threshold.isNullish = false ∧ p.threshold ≠ .jsNum (-1)
          ∧ (p.threshold.isNumber = false ∨ numBetween p.threshold 0 255 = false))
       ∧ ¬ (p.optCurve.isNullish = false ∧ p.optCurve.isBoolean = false)) := by
  simp only [validateParametersDoc3]
  split_ifs with h1 h2 h3 <;>
    simp_all [Except.isOk, Except.toBool]

/-- setParameters of the first implementation succeeds iff the validator
accepts the merged record. -/
theorem setParametersDoc3_isOk_iff (cur opts : PotraceParams) :
    (setParametersDoc3 cur opts).isOk = true ↔
      (validateParametersDoc3 (mergeDoc3 cur opts)).isOk = true := by
  unfold setParametersDoc3
  cases h : validateParametersDoc3 (mergeDoc3 cur opts) <;>
    simp [Except.isOk, Except.toBool, h]

/-- C4 counterexample: the claim fails on every setParameters in the
repository.  The second implementation's setParameters accepts a non-boolean
optCurve (it has no optCurve check); the first implementation's setParameters
accepts turdSize = -1 (it validates neither turdSize nor alphaMax) and accepts
an unsupported turnPolicy (the merge silently ignores it, and the validator
then sees the previous, valid value). -/
theorem c4_validation_counterexample :
    (setParametersDoc4 defaultParams { emptyOpts with optCurve := .jsNum 1 }).isOk = true
    ∧ (setParametersDoc3 defaultParams { emptyOpts with turdSize := .jsNum (-1) }).isOk = true
    ∧ (setParametersDoc3 defaultParams { emptyOpts with turnPolicy := .jsStr "bogus" }).isOk = true := by
  refine ⟨?_, ?_, ?_⟩
  · rw [setParametersDoc4_isOk_iff]
    simp [spreadParams, mergeParam, emptyOpts, defaultParams, JSVal.truthy,
      JSVal.isSupportedTurnPolicy, supportedTurnPolicies, numLT, numOutside]
    norm_num
  · rw [setParametersDoc3_isOk_iff, validateParametersDoc3_isOk_iff]
    simp [mergeDoc3, mergeParam, emptyOpts, defaultParams, JSVal.truthy,
      JSVal.isSupportedTurnPolicy, supportedTurnPolicies, JSVal.isNullish,
      JSVal.isNumber, JSVal.isBoolean, numBetween]
  · rw [setParametersDoc3_isOk_iff, validateParametersDoc3_isOk_iff]
    simp [mergeDoc3, mergeParam, emptyOpts, defaultParams, JSVal.truthy,
      JSVal.isSupportedTurnPolicy, supportedTurnPolicies, JSVal.isNullish,
      JSVal.isNumber, JSVal.isBoolean, numBetween]

/-- C4 amended: split by implementation.  Both setParameters accept every
options object whose supplied fields satisfy the five claimed conditions.  The
second implementation rejects an unsupported (truthy) turnPolicy, a negative
numeric turdSize, a numeric alphaMax outside [0, 1.3334] and a numeric non-AUTO
threshold outside [0, 255] — but performs no optCurve check.  The first
implementation rejects a supplied non-AUTO threshold that is not a number in
[0, 255] and a supplied non-boolean optCurve — but does not validate turdSize
or alphaMax, and silently ignores an unsupported turnPolicy. -/
theorem c4_validation_amended (opts : PotraceParams) :
    (GoodOpts opts →
      (setParametersDoc4 defaultParams opts).isOk = true
      ∧ (setParametersDoc3 defaultParams opts).isOk = true)
    ∧ (opts.turnPolicy.truthy = true ∧ opts.turnPolicy.isSupportedTurnPolicy = false →
        (setParametersDoc4 defaultParams opts).isOk = false)
    ∧ (numLT opts.turdSize 0 = true →
        (setParametersDoc4 defaultParams opts).isOk = false)
    ∧ (numOutside opts.alphaMax 0 1.3334 = true →
        (setParametersDoc4 defaultParams opts).isOk = false)
    ∧ (opts.threshold ≠ .jsNum (-1) ∧ numOutside opts.threshold 0 255 = true →
        (setParametersDoc4 defaultParams opts).isOk = false)
    ∧ (opts.threshold.isNullish = false ∧ opts.threshold ≠ .jsNum (-1)
        ∧ (opts.threshold.isNumber = false ∨ numBetween opts.threshold 0 255 = false) →
        (setParametersDoc3 defaultParams opts).isOk = false)
    ∧ (opts.optCurve.isNullish = false ∧ opts.optCurve.isBoolean = false →
        (setParametersDoc3 defaultParams opts).isOk = false) := by
  have hmergeTP : (spreadParams defaultParams opts).turnPolicy
      = mergeParam (.jsStr "minority") opts.turnPolicy := rfl
  refine ⟨?_, ?_, ?_, ?_, ?_, ?_, ?_⟩
  · rintro ⟨hg1, hg2, hg3, hg4, hg5⟩
    constructor
    · rw [setParametersDoc4_isOk_iff]
      refine ⟨?_, ?_, ?_, ?_⟩
      · rcases hg1 with h | h
        · simp [spreadParams, mergeParam, h, defaultParams, JSVal.truthy,
            JSVal.isSupportedTurnPolicy, supportedTurnPolicies]
        · have hne : opts.turnPolicy ≠ .undef := by
            intro hu
            rw [hu] at h
            simp [JSVal.isSupportedTurnPolicy] at h
          simp [spreadParams, mergeParam, hne, h]
      · rcases hg2 with h | ⟨q, hq, hq0⟩
        · simp [spreadParams, mergeParam, h, defaultParams, numLT] <;> norm_num
        · simp [spreadParams, mergeParam, hq, numLT] <;> linarith
      · rcases hg3 with h | ⟨q, hq, hq0, hq1⟩
        · simp [spreadParams, mergeParam, h, defaultParams, numOutside] <;> norm_num
        · simp [spreadParams, mergeParam, hq, numOutside] <;>
            first
            | exact ⟨by linarith, by linarith⟩
            | linarith
      · rcases hg4 with h | h | ⟨q, hq, hq0, hq1⟩
        · simp [spreadParams, mergeParam, h, defaultParams]
        · simp [spreadParams, mergeParam, h]
        · simp [spreadParams, mergeParam, hq, numOutside]
          intro hcon
          exact ⟨by linarith, by linarith⟩
    · rw [setParametersDoc3_isOk_iff, validateParametersDoc3_isOk_iff]
      refine ⟨?_, ?_, ?_⟩
      · by_cases hc : opts.turnPolicy ≠ .undef ∧ opts.turnPolicy.isSupportedTurnPolicy = true
        · simp [mergeDoc3, hc.1, hc.2, if_pos hc]
        · simp only [mergeDoc3, if_neg hc]
          simp [defaultParams, JSVal.truthy, JSVal.isSupportedTurnPolicy,
            supportedTurnPolicies]
      · rcases hg4 with h | h | ⟨q, hq, hq0, hq1⟩
        · simp [mergeDoc3, mergeParam, h, defaultParams, JSVal.isNullish]
        · simp [mergeDoc3, mergeParam, h]
        · have hne : opts.threshold ≠ .undef := by simp [hq]
          simp only [mergeDoc3, mergeParam, hne, hq, if_neg, JSVal.isNullish,
            JSVal.isNumber, numBetween, between]
          simp [hq]
          intro hcon
          exact ⟨by linarith, by linarith⟩
      · rcases hg5 with h | ⟨b, hb⟩
        · simp [mergeDoc3, mergeParam, h, defaultParams, JSVal.isNullish,
            JSVal.isBoolean]
        · have hne : opts.optCurve ≠ .undef := by simp [hb]
          simp [mergeDoc3, mergeParam, hne, hb, JSVal.isNullish, JSVal.isBoolean]
  · rintro ⟨ht, hs⟩
    cases hres : (setParametersDoc4 defaultParams opts).isOk with
    | false => rfl
    | true =>
        exfalso
        have hA := (setParametersDoc4_isOk_iff _ _).mp hres
        have hne : opts.turnPolicy ≠ .undef := by
          intro hu
          rw [hu] at ht
          simp [JSVal.truthy] at ht
        rw [hmergeTP] at hA
        simp only [mergeParam, if_neg hne] at hA
        exact hA.1 ⟨ht, hs⟩
  · intro hc
    cases hres : (setParametersDoc4 defaultParams opts).isOk with
    | false => rfl
    | true =>
        exfalso
        have hA := (setParametersDoc4_isOk_iff _ _).mp hres
        have hne : opts.turdSize ≠ .undef := by
          intro hu
          rw [hu] at hc
          simp [numLT] at hc
        have heq : (spreadParams defaultParams opts).turdSize = opts.turdSize := by
          simp [spreadParams, mergeParam, hne]
        rw [heq] at hA
        rw [hA.2.1] at hc
        exact Bool.false_ne_true hc
  · intro hc
    cases hres : (setParametersDoc4 defaultParams opts).isOk with
    | false => rfl
    | true =>
        exfalso
        have hA := (setParametersDoc4_isOk_iff _ _).mp hres
        have hne : opts.alphaMax ≠ .undef := by
          intro hu
          rw [hu] at hc
          simp [numOutside] at hc
        have heq : (spreadParams defaultParams opts).alphaMax = opts.alphaMax := by
          simp [spreadParams, mergeParam, hne]
        rw [heq] at hA
        rw [hA.2.2.1] at hc
        exact Bool.false_ne_true hc
  · rintro ⟨hne1, hc⟩
    cases hres : (setParametersDoc4 defaultParams opts).isOk with
    | false => rfl
    | true =>
        exfalso
        have hA := (setParametersDoc4_isOk_iff _ _).mp hres
        have hne : opts.threshold ≠ .undef := by
          intro hu
          rw [hu] at hc
          simp [numOutside] at hc
        have heq : (spreadParams defaultParams opts).threshold = opts.threshold := by
          simp [spreadParams, mergeParam, hne]
        rw [heq] at hA
        exact hA.2.2.2 ⟨hne1, hc⟩
  · rintro ⟨hn, hne1, hc⟩
    cases hres : (setParametersDoc3 defaultParams opts).isOk with
    | false => rfl
    | true =>
        exfalso
        have hA := (validateParametersDoc3_isOk_iff _).mp
          ((setParametersDoc3_isOk_iff _ _).mp hres)
        have hne : opts.threshold ≠ .undef := by
          intro hu
          rw [hu] at hn
          simp [JSVal.isNullish] at hn
        have heq : (mergeDoc3 defaultParams opts).threshold = opts.threshold := by
          simp [mergeDoc3, mergeParam, hne]
        rw [heq] at hA
        exact hA.2.1 ⟨hn, hne1, hc⟩
  · rintro ⟨hn, hc⟩
    cases hres : (setParametersDoc3 defaultParams opts).isOk with
    | false => rfl
    | true =>
        exfalso
        have hA := (validateParametersDoc3_isOk_iff _).mp
          ((setParametersDoc3_isOk_iff _ _).mp hres)
        have hne : opts.optCurve ≠ .undef := by
          intro hu
          rw [hu] at hn
          simp [JSVal.isNullish] at hn
        have heq : (mergeDoc3 defaultParams opts).optCurve = opts.optCurve := by
          simp [mergeDoc3, mergeParam, hne]
        rw [heq] at hA
        exact hA.2.2 ⟨hn, hc⟩

/-- C4 amended, witness: the empty options object satisfies the five
conditions and is accepted by both implementations; turdSize = -1 is rejected
by the second implementation; a numeric optCurve is rejected by the first
implementation. -/
theorem c4_validation_amended_witness :
    ((setParametersDoc4 defaultParams emptyOpts).isOk = true
      ∧ (setParametersDoc3 defaultParams emptyOpts).isOk = true)
    ∧ (setParametersDoc4 defaultParams { emptyOpts with turdSize := .jsNum (-1) }).isOk = false
    ∧ (setParametersDoc3 defaultParams { emptyOpts with optCurve := .jsNum 1 }).isOk = false := by
  refine ⟨?_, ?_, ?_⟩
  · exact (c4_validation_amended emptyOpts).1
      ⟨Or.inl rfl, Or.inl rfl, Or.inl rfl, Or.inl rfl, Or.inl rfl⟩
  · exact (c4_validation_amended _).2.2.1 (by norm_num [numLT])
  · exact (c4_validation_amended _).2.2.2.2.2.2
      ⟨by simp [JSVal.isNullish], by simp [JSVal.isBoolean]⟩

/-- clamp to [0,1] lands in [0,1]. -/
theorem clamp01_bounds (x : ℚ) : 0 ≤ clamp x 0 1 ∧ clamp x 0 1 ≤ 1 :=
  ⟨le_min (by norm_num) (le_max_left 0 x), min_le_left 1 _⟩

/-- One opacity layer keeps actualPrev in [0,1] and never decreases it. -/
theorem opacityStep_bounds (a I : ℚ) (h0 : 0 ≤ a) (h1 : a ≤ 1) :
    a ≤ opacityStep a I ∧ opacityStep a I ≤ 1 := by
  have key : ∀ c : ℚ, 0 ≤ c → c ≤ 1 → a ≤ a + (1 - a) * c ∧ a + (1 - a) * c ≤ 1 := by
    intro c hc0 hc1
    constructor <;> nlinarith
  unfold opacityStep
  split_ifs with hI h2 <;>
    first
    | exact ⟨le_refl a, h1⟩
    | exact key _ (clamp01_bounds _).1 (clamp01_bounds _).2

/-- Folding opacity layers from any starting value in [0,1] stays in [0,1]. -/
theorem actualPrevFoldl_bounds :
    ∀ (l : List ℚ) (a : ℚ), 0 ≤ a → a ≤ 1 →
      0 ≤ l.foldl opacityStep a ∧ l.foldl opacityStep a ≤ 1 := by
  intro l
  induction l with
  | nil => intro a h0 h1; exact ⟨h0, h1⟩
  | cons I t ih =>
      intro a h0 h1
      have hs := opacityStep_bounds a I h0 h1
      exact ih (opacityStep a I) (le_trans h0 hs.1) hs.2

/-- C6: in the Posterizer layering loop, for color stops with intensities in
[0,1], the accumulated actualPrevLayersOpacity lies in [0,1] after any prefix
of the layers and never decreases from one layer to the next.  (The clamp to
[0,1] inside the loop makes the invariant hold regardless of the
intensities.) -/
theorem c6_opacity_invariant (layers : List ℚ)
    (h : ∀ I ∈ layers, 0 ≤ I ∧ I ≤ 1) :
    (∀ pre rest, layers = pre ++ rest →
        0 ≤ actualPrevAfter pre ∧ actualPrevAfter pre ≤ 1)
    ∧ (∀ pre I rest, layers = pre ++ I :: rest →
        actualPrevAfter pre ≤ actualPrevAfter (pre ++ [I])) := by
  constructor
  · intro pre rest _
    exact actualPrevFoldl_bounds pre 0 (le_refl 0) (by norm_num)
  · intro pre I rest _
    have hb := actualPrevFoldl_bounds pre 0 (le_refl 0) (by norm_num)
    have hstep : actualPrevAfter (pre ++ [I]) = opacityStep (actualPrevAfter pre) I := by
      simp [actualPrevAfter, List.foldl_append]
    rw [hstep]
    exact (opacityStep_bounds _ _ hb.1 hb.2).1

/-- C6 witness: with the single layer 1/2, the invariant instantiates to
concrete bounds and monotonicity. -/
theorem c6_opacity_invariant_witness :
    (0 ≤ actualPrevAfter [1/2] ∧ actualPrevAfter [1/2] ≤ 1)
    ∧ actualPrevAfter [] ≤ actualPrevAfter ([] ++ [1/2]) := by
  have h := c6_opacity_invariant [(1:ℚ)/2]
    (by
      intro I hI
      simp only [List.mem_singleton] at hI
      rw [hI]
      norm_num)
  exact ⟨h.1 [1/2] [] (by simp), h.2 [] (1/2) [] (by simp)⟩

/-- utils.between as a proposition. -/
theorem between_true_iff (v lo hi : ℚ) :
    between v lo hi = true ↔ lo ≤ v ∧ v ≤ hi := by
  simp [between]

/-- The dedup-and-filter pass keeps no duplicates and keeps exactly the entries
of the steps array lying in [0, 255]. -/
theorem stepsFilter_spec (steps : List ℚ) :
    (stepsFilter steps).Nodup
    ∧ ∀ x, x ∈ stepsFilter steps ↔ x ∈ steps ∧ 0 ≤ x ∧ x ≤ 255 := by
  have aux : ∀ (l acc : List ℚ), acc.Nodup →
      (l.foldl (fun acc item =>
          if ¬ acc.contains item ∧ between item 0 255 then acc ++ [item] else acc)
        acc).Nodup
      ∧ ∀ x, x ∈ l.foldl (fun acc item =>
          if ¬ acc.contains item ∧ between item 0 255 then acc ++ [item] else acc)
        acc ↔ x ∈ acc ∨ (x ∈ l ∧ 0 ≤ x ∧ x ≤ 255) := by
    intro l
    induction l with
    | nil => intro acc hacc; exact ⟨hacc, fun x => by simp⟩
    | cons a t ih =>
        intro acc hacc
        simp only [List.foldl_cons]
        by_cases hc : ¬ acc.contains a ∧ between a 0 255
        · rw [if_pos hc]
          have hnd : (acc ++ [a]).Nodup := by
            have hna : a ∉ acc := by
              intro hmem
              exact hc.1 (List.elem_iff.mpr hmem)
            simp [List.nodup_append, hna, hacc]
          obtain ⟨hr1, hr2⟩ := ih (acc ++ [a]) hnd
          refine ⟨hr1, fun x => ?_⟩
          rw [hr2 x]
          have hb := (between_true_iff a 0 255).mp hc.2
          constructor
          · rintro (hm | hm)
            · rcases List.mem_append.mp hm with hm1 | hm1
              · exact Or.inl hm1
              · simp only [List.mem_singleton] at hm1
                exact Or.inr ⟨by simp [hm1], by rw [hm1]; exact hb.1, by rw [hm1]; exact hb.2⟩
            · exact Or.inr ⟨List.mem_cons_of_mem a hm.1, hm.2.1, hm.2.2⟩
          · rintro (hm | ⟨hm, h0, h255⟩)
            · exact Or.inl (List.mem_append.mpr (Or.inl hm))
            · rcases List.mem_cons.mp hm with rfl | hm1
              · exact Or.inl (List.mem_append.mpr (Or.inr (by simp)))
              · exact Or.inr ⟨hm1, h0, h255⟩
        · rw [if_neg hc]
          obtain ⟨hr1, hr2⟩ := ih acc hacc
          refine ⟨hr1, fun x => ?_⟩
          rw [hr2 x]
          rw [Classical.not_and_iff_or_not_not, not_not] at hc
          constructor
          · rintro (hm | hm)
            · exact Or.inl hm
            · exact Or.inr ⟨List.mem_cons_of_mem a hm.1, hm.2.1, hm.2.2⟩
          · rintro (hm | ⟨hm, h0, h255⟩)
            · exact Or.inl hm
            · rcases List.mem_cons.mp hm with rfl | hm1
              · rcases hc with hc1 | hc1
                · exact Or.inl (List.elem_iff.mp hc1)
                · exact absurd ((between_true_iff x 0 255).mpr ⟨h0, h255⟩)
                    (by simpa using hc1)
              · exact Or.inr ⟨hm1, h0, h255⟩
  have h := aux steps [] List.nodup_nil
  constructor
  · exact h.1
  · intro x
    refine Iff.trans ?_ ((h.2 x).trans (by simp))
    rw [stepsFilter]

/-- The descending sort used for blackOnWhite: sorted (≥) and a permutation of
the input. -/
theorem jsSortStops_desc (l : List ℚ) :
    List.Sorted (fun a b => b ≤ a) (jsSortStops true l)
    ∧ (jsSortStops true l).Perm l := by
  haveI ht : IsTotal ℚ (fun a b => b ≤ a) := ⟨fun a b => le_total b a⟩
  haveI htr : IsTrans ℚ (fun a b => b ≤ a) := ⟨fun _ _ _ hab hbc => le_trans hbc hab⟩
  exact ⟨List.sorted_insertionSort _ l, List.perm_insertionSort _ l⟩

/-- The ascending sort used otherwise: sorted (≤) and a permutation of the
input. -/
theorem jsSortStops_asc (l : List ℚ) :
    List.Sorted (· ≤ ·) (jsSortStops false l)
    ∧ (jsSortStops false l).Perm l := by
  haveI ht : IsTotal ℚ (fun a b : ℚ => a ≤ b) := ⟨fun a b => le_total a b⟩
  haveI htr : IsTrans ℚ (fun a b : ℚ => a ≤ b) := ⟨fun _ _ _ hab hbc => le_trans hab hbc⟩
  exact ⟨List.sorted_insertionSort _ l, List.perm_insertionSort _ l⟩

/-- A weakly sorted list without duplicates is strictly sorted (descending
flavour). -/
theorem sorted_desc_strict (l : List ℚ) (hs : List.Sorted (fun a b => b ≤ a) l)
    (hn : l.Nodup) : List.Sorted (· > ·) l := by
  induction l with
  | nil => exact List.sorted_nil
  | cons a t ih =>
      rw [List.sorted_cons] at hs ⊢
      rw [List.nodup_cons] at hn
      refine ⟨fun b hb => lt_of_le_of_ne (hs.1 b hb) ?_, ih hs.2 hn.2⟩
      intro hba
      exact hn.1 (hba ▸ hb)

/-- A weakly sorted list without duplicates is strictly sorted (ascending
flavour). -/
theorem sorted_asc_strict (l : List ℚ) (hs : List.Sorted (· ≤ ·) l)
    (hn : l.Nodup) : List.Sorted (· < ·) l := by
  induction l with
  | nil => exact List.sorted_nil
  | cons a t ih =>
      rw [List.sorted_cons] at hs ⊢
      rw [List.nodup_cons] at hn
      refine ⟨fun b hb => lt_of_le_of_ne (hs.1 b hb) ?_, ih hs.2 hn.2⟩
      intro hab
      exact hn.1 (hab ▸ hb)

/-- In a descending-sorted nonempty list, the head is below th iff every
element is. -/
theorem sorted_desc_headD_lt (l : List ℚ) (hl : l ≠ [])
    (hs : List.Sorted (fun a b => b ≤ a) l) (th : ℚ) :
    (l.headD 0 < th ↔ ∀ x ∈ l, x < th) := by
  cases l with
  | nil => exact absurd rfl hl
  | cons a t =>
      rw [List.sorted_cons] at hs
      simp only [List.headD_cons]
      constructor
      · intro h x hx
        rcases List.mem_cons.mp hx with rfl | hx
        · exact h
        · exact lt_of_le_of_lt (hs.1 x hx) h
      · intro h
        exact h a (List.mem_cons_self a t)

/-- Every element of an ascending-sorted list is at most its last element. -/
theorem sorted_asc_le_getLastD (l : List ℚ) (hs : List.Sorted (· ≤ ·) l) :
    ∀ x ∈ l, x ≤ l.getLastD 0 := by
  induction l with
  | nil => intro x hx; exact absurd hx (List.not_mem_nil x)
  | cons a t ih =>
      rw [List.sorted_cons] at hs
      intro x hx
      cases t with
      | nil =>
          simp only [List.mem_singleton] at hx
          simp [hx]
      | cons b u =>
          have hlast : (a :: b :: u).getLastD 0 = (b :: u).getLastD 0 := by
            simp [List.getLastD_cons]
          rw [hlast]
          rcases List.mem_cons.mp hx with rfl | hx1
          · exact le_trans (hs.1 b (List.mem_cons_self b u))
              (ih hs.2 b (List.mem_cons_self b u))
          · exact ih hs.2 x hx1

/-- In an ascending-sorted nonempty list, the last element is below th iff
every element is. -/
theorem sorted_asc_getLastD_lt (l : List ℚ) (hl : l ≠ [])
    (hs : List.Sorted (· ≤ ·) l) (th : ℚ) :
    (l.getLastD 0 < th ↔ ∀ x ∈ l, x < th) := by
  constructor
  · intro h x hx
    exact lt_of_le_of_lt (sorted_asc_le_getLastD l hs x hx) h
  · intro h
    have hmem : l.getLastD 0 ∈ l := by
      cases l with
      | nil => exact absurd rfl hl
      | cons a t =>
          rw [List.getLastD_eq_getLast?, List.getLast?_eq_getLast (a :: t) (by simp)]
          simp [List.getLast_mem]
    exact h _ hmem

/-- C5 counterexample: steps = [300] has no entry in [0, 255], so the claimed
description produces no stop at all, yet _getRanges falls back to the single
stop [threshold]: resolved stops are NOT exactly the distinct in-range entries
with the threshold possibly attached. -/
theorem c5_steps_array_counterexample :
    getRangesArrayStops [300] 128 true = [128] ∧ stepsFilter [300] = [] := by
  constructor
  · rfl
  · rfl

/-- With a nonempty filtered list the fallback is skipped and the code reduces
to sort-then-attach-threshold. -/
theorem getRangesArrayStops_eq_of_ne (steps : List ℚ) (th : ℚ) (bOW : Bool)
    (hne : stepsFilter steps ≠ []) :
    getRangesArrayStops steps th bOW =
      (if bOW = true ∧ (jsSortStops bOW (stepsFilter steps)).headD 0 < th then
        th :: jsSortStops bOW (stepsFilter steps)
      else if ¬ bOW = true ∧ (jsSortStops bOW (stepsFilter steps)).getLastD 0 < th then
        jsSortStops bOW (stepsFilter steps) ++ [th]
      else jsSortStops bOW (stepsFilter steps)) := by
  have hne' : (stepsFilter steps).isEmpty = false := by
    cases h : stepsFilter steps with
    | nil => exact absurd h hne
    | cons a t => rfl
  simp only [getRangesArrayStops, hne', Bool.false_eq_true, if_false]

/-- C5 amended: when the steps array has entries in [0, 255], the resolved
stops are exactly those distinct entries sorted descending (blackOnWhite) or
ascending (otherwise), with the threshold prepended/appended exactly when it
is strictly beyond every stop; when no entry survives the [0, 255] filter, the
resolved list is just [threshold].  The claim's example instances hold. -/
theorem c5_steps_array_amended (steps : List ℚ) (threshold : ℚ) :
    (stepsFilter steps = [] →
      getRangesArrayStops steps threshold true = [threshold]
      ∧ getRangesArrayStops steps threshold false = [threshold])
    ∧ (stepsFilter steps ≠ [] →
      List.Sorted (· > ·) (getRangesArrayStops steps threshold true)
      ∧ ∀ x, x ∈ getRangesArrayStops steps threshold true ↔
          ((x ∈ steps ∧ 0 ≤ x ∧ x ≤ 255)
            ∨ ((∀ y ∈ stepsFilter steps, y < threshold) ∧ x = threshold)))
    ∧ (stepsFilter steps ≠ [] →
      List.Sorted (· < ·) (getRangesArrayStops steps threshold false)
      ∧ ∀ x, x ∈ getRangesArrayStops steps threshold false ↔
          ((x ∈ steps ∧ 0 ≤ x ∧ x ≤ 255)
            ∨ ((∀ y ∈ stepsFilter steps, y < threshold) ∧ x = threshold)))
    ∧ getRangesArrayStops [20, 60, 80, 160] 180 true = [180, 160, 80, 60, 20]
    ∧ getRangesArrayStops [20, 60, 80, 160] 180 false = [20, 60, 80, 160, 180] := by
  obtain ⟨hnd, hmem⟩ := stepsFilter_spec steps
  refine ⟨?_, ?_, ?_, by rfl, by rfl⟩
  · intro h
    constructor <;>
      · simp [getRangesArrayStops, h, jsSortStops, List.insertionSort,
          List.orderedInsert]
  · intro hne
    obtain ⟨hsorted, hperm⟩ := jsSortStops_desc (stepsFilter steps)
    have hsne : jsSortStops true (stepsFilter steps) ≠ [] := by
      intro h
      rw [h] at hperm
      exact hne (List.Perm.nil_eq hperm).symm
    have hmemsorted : ∀ x, x ∈ jsSortStops true (stepsFilter steps) ↔ x ∈ stepsFilter steps :=
      fun x => hperm.mem_iff
    have hndsorted : (jsSortStops true (stepsFilter steps)).Nodup := hperm.nodup_iff.mpr hnd
    have hstrict := sorted_desc_strict _ hsorted hndsorted
    have hhead := sorted_desc_headD_lt _ hsne hsorted threshold
    rw [getRangesArrayStops_eq_of_ne steps threshold true hne]
    simp only [eq_self_iff_true, true_and, not_true, false_and, if_false]
    by_cases hc : (jsSortStops true (stepsFilter steps)).headD 0 < threshold
    · rw [if_pos hc]
      have hall : ∀ y ∈ stepsFilter steps, y < threshold :=
        fun y hy => hhead.mp hc y ((hmemsorted y).mpr hy)
      constructor
      · rw [List.sorted_cons]
        exact ⟨fun b hb => hhead.mp hc b hb, hstrict⟩
      · intro x
        constructor
        · intro hx
          rcases List.mem_cons.mp hx with rfl | hx1
          · exact Or.inr ⟨hall, rfl⟩
          · exact Or.inl ((hmem x).mp ((hmemsorted x).mp hx1))
        · rintro (hx | ⟨-, rfl⟩)
          · exact List.mem_cons_of_mem _ ((hmemsorted x).mpr ((hmem x).mpr hx))
          · exact List.mem_cons_self _ _
    · rw [if_neg hc]
      constructor
      · exact hstrict
      · intro x
        constructor
        · intro hx
          exact Or.inl ((hmem x).mp ((hmemsorted x).mp hx))
        · rintro (hx | ⟨hall, rfl⟩)
          · exact (hmemsorted x).mpr ((hmem x).mpr hx)
          · exact absurd (hhead.mpr (fun y hy => hall y ((hmemsorted y).mp hy))) hc
  · intro hne
    obtain ⟨hsorted, hperm⟩ := jsSortStops_asc (stepsFilter steps)
    have hsne : jsSortStops false (stepsFilter steps) ≠ [] := by
      intro h
      rw [h] at hperm
      exact hne (List.Perm.nil_eq hperm).symm
    have hmemsorted : ∀ x, x ∈ jsSortStops false (stepsFilter steps) ↔ x ∈ stepsFilter steps :=
      fun x => hperm.mem_iff
    have hndsorted : (jsSortStops false (stepsFilter steps)).Nodup := hperm.nodup_iff.mpr hnd
    have hstrict := sorted_asc_strict _ hsorted hndsorted
    have hlast := sorted_asc_getLastD_lt _ hsne hsorted threshold
    rw [getRangesArrayStops_eq_of_ne steps threshold false hne]
    simp only [Bool.false_eq_true, false_and, if_false, not_false_iff, true_and]
    by_cases hc : (jsSortStops false (stepsFilter steps)).getLastD 0 < threshold
    · rw [if_pos hc]
      have hall : ∀ y ∈ stepsFilter steps, y < threshold :=
        fun y hy => hlast.mp hc y ((hmemsorted y).mpr hy)
      constructor
      · rw [List.Sorted, List.pairwise_append]
        exact ⟨hstrict, List.pairwise_singleton _ _,
          fun x hx y hy => by
            simp only [List.mem_singleton] at hy
            rw [hy]
            exact hlast.mp hc x hx⟩
      · intro x
        constructor
        · intro hx
          rcases List.mem_append.mp hx with hx1 | hx1
          · exact Or.inl ((hmem x).mp ((hmemsorted x).mp hx1))
          · simp only [List.mem_singleton] at hx1
            exact Or.inr ⟨hall, hx1⟩
        · rintro (hx | ⟨-, rfl⟩)
          · exact List.mem_append.mpr (Or.inl ((hmemsorted x).mpr ((hmem x).mpr hx)))
          · exact List.mem_append.mpr (Or.inr (by simp))
    · rw [if_neg hc]
      constructor
      · exact hstrict
      · intro x
        constructor
        · intro hx
          exact Or.inl ((hmem x).mp ((hmemsorted x).mp hx))
        · rintro (hx | ⟨hall, rfl⟩)
          · exact (hmemsorted x).mpr ((hmem x).mpr hx)
          · exact absurd (hlast.mpr (fun y hy => hall y ((hmemsorted y).mp hy))) hc

/-- C5 amended, witness: the nonempty-filter conjuncts instantiated at the
claim's own example: the resolved list for steps [20,60,80,160], threshold
180, blackOnWhite is strictly descending, and 180 is a member because every
stop lies below the threshold. -/
theorem c5_steps_array_amended_witness :
    List.Sorted (· > ·) (getRangesArrayStops [20, 60, 80, 160] 180 true)
    ∧ (180 : ℚ) ∈ getRangesArrayStops [20, 60, 80, 160] 180 true := by
  have h := (c5_steps_array_amended [20, 60, 80, 160] 180).2.1 (by decide)
  refine ⟨h.1, (h.2 180).mpr (Or.inr ⟨?_, rfl⟩)⟩
  decide

/-- Math.round of an integer is itself. -/
theorem jsRound_intCast (m : ℤ) : jsRound (m : ℚ) = m := by
  unfold jsRound
  rw [add_comm ((m : ℚ)) (1/2), Int.floor_add_int]
  norm_num

/-- Math.round is monotone. -/
theorem jsRound_mono {a b : ℚ} (h : a ≤ b) : jsRound a ≤ jsRound b :=
  Int.floor_le_floor (by linarith)

/-- clampZ is monotone. -/
theorem clampZ_mono {x y : ℤ} (h : x ≤ y) (lo hi : ℤ) :
    clampZ x lo hi ≤ clampZ y lo hi :=
  min_le_min (le_refl hi) (max_le_max (le_refl lo) h)

/-- normalizeMinMax fails exactly when the clamped rounded minimum exceeds the
clamped rounded maximum. -/
theorem normalizeMinMax_isOk_iff (a b : ℚ) :
    (normalizeMinMax (some a) (some b)).isOk = false
      ↔ clampZ (jsRound b) 0 255 < clampZ (jsRound a) 0 255 := by
  simp only [normalizeMinMax]
  split_ifs with h <;> simp_all [Except.isOk, Except.toBool]

/-- getStats raises exactly when normalizeMinMax does. -/
theorem getStats_isOk_eq (d : ℕ → ℕ) (a b : ℚ) :
    (getStats d (some a) (some b)).isOk = (normalizeMinMax (some a) (some b)).isOk := by
  unfold getStats
  cases h : normalizeMinMax (some a) (some b) with
  | error e => simp [h, Except.isOk, Except.toBool]
  | ok p => simp [h, Except.isOk, Except.toBool]

/-- getDominantColor raises exactly when normalizeMinMax does. -/
theorem getDominantColor_isOk_eq (d : ℕ → ℕ) (a b : ℚ) (tol : ℕ) :
    (getDominantColor d (some a) (some b) tol).isOk
      = (normalizeMinMax (some a) (some b)).isOk := by
  unfold getDominantColor
  cases h : normalizeMinMax (some a) (some b) with
  | error e => simp [h, Except.isOk, Except.toBool]
  | ok p => simp [h, Except.isOk, Except.toBool]

/-- multilevelThresholding raises exactly when normalizeMinMax does. -/
theorem multilevelThresholding_isOk_eq (d : ℕ → ℕ) (pixels : ℕ) (amount : ℚ) (a b : ℚ) :
    (multilevelThresholding d pixels amount (some a) (some b)).isOk
      = (normalizeMinMax (some a) (some b)).isOk := by
  unfold multilevelThresholding
  cases h : normalizeMinMax (some a) (some b) with
  | error e => simp [h, Except.isOk, Except.toBool]
  | ok p =>
      simp only [h]
      split_ifs <;> simp [Except.isOk, Except.toBool]

/-- C8 counterexample: with supplied min = -5 greater than supplied max = -10,
both bounds clamp to 0 and none of the three range operations raises, refuting
the only-if direction of the claim. -/
theorem c8_invalid_range_counterexample :
    (getStats (fun _ => 0) (some (-5)) (some (-10))).isOk = true
    ∧ (getDominantColor (fun _ => 0) (some (-5)) (some (-10)) 1).isOk = true
    ∧ (multilevelThresholding (fun _ => 0) 0 1 (some (-5)) (some (-10))).isOk = true
    ∧ ((-10 : ℚ) < -5) := by
  have h5 : jsRound (-5 : ℚ) = -5 := by
    have h := jsRound_intCast (-5)
    push_cast at h
    exact h
  have h10 : jsRound (-10 : ℚ) = -10 := by
    have h := jsRound_intCast (-10)
    push_cast at h
    exact h
  have hiff := normalizeMinMax_isOk_iff (-5) (-10)
  rw [h5, h10] at hiff
  have hne : (normalizeMinMax (some (-5 : ℚ)) (some (-10 : ℚ))).isOk ≠ false :=
    fun hf => absurd (hiff.mp hf) (by decide)
  have hok : (normalizeMinMax (some (-5 : ℚ)) (some (-10 : ℚ))).isOk = true := by
    cases hres : (normalizeMinMax (some (-5 : ℚ)) (some (-10 : ℚ))).isOk with
    | false => exact absurd hres hne
    | true => rfl
  refine ⟨?_, ?_, ?_, by norm_num⟩
  · rw [getStats_isOk_eq]
    exact hok
  · rw [getDominantColor_isOk_eq]
    exact hok
  · rw [multilevelThresholding_isOk_eq]
    exact hok

/-- C8 amended: each of the three range operations raises InvalidRange exactly
when the clamp-to-[0,255] of the rounded supplied min exceeds that of the
rounded supplied max.  Raising therefore implies min > max, but not
conversely; for integer arguments inside [0, 255] the claimed equivalence
error-iff-min>max does hold. -/
theorem c8_invalid_range_amended (d : ℕ → ℕ) (pixels : ℕ) (amount : ℚ)
    (tol : ℕ) (a b : ℚ) :
    ((getStats d (some a) (some b)).isOk = false
      ↔ clampZ (jsRound b) 0 255 < clampZ (jsRound a) 0 255)
    ∧ ((getDominantColor d (some a) (some b) tol).isOk = false
      ↔ clampZ (jsRound b) 0 255 < clampZ (jsRound a) 0 255)
    ∧ ((multilevelThresholding d pixels amount (some a) (some b)).isOk = false
      ↔ clampZ (jsRound b) 0 255 < clampZ (jsRound a) 0 255)
    ∧ (clampZ (jsRound b) 0 255 < clampZ (jsRound a) 0 255 → b < a)
    ∧ (∀ m n : ℤ, 0 ≤ m → m ≤ 255 → 0 ≤ n → n ≤ 255 →
        ((getStats d (some (m : ℚ)) (some (n : ℚ))).isOk = false ↔ n < m)) := by
  refine ⟨?_, ?_, ?_, ?_, ?_⟩
  · rw [getStats_isOk_eq]
    exact normalizeMinMax_isOk_iff a b
  · rw [getDominantColor_isOk_eq]
    exact normalizeMinMax_isOk_iff a b
  · rw [multilevelThresholding_isOk_eq]
    exact normalizeMinMax_isOk_iff a b
  · intro h
    by_contra hba
    push_neg at hba
    exact absurd (clampZ_mono (jsRound_mono hba) 0 255) (not_le.mpr h)
  · intro m n hm0 hm255 hn0 hn255
    rw [getStats_isOk_eq, normalizeMinMax_isOk_iff, jsRound_intCast, jsRound_intCast]
    have hcm : clampZ m 0 255 = m := by
      simp only [clampZ]
      omega
    have hcn : clampZ n 0 255 = n := by
      simp only [clampZ]
      omega
    rw [hcm, hcn]

/-- C8 amended, witness: at min = 3, max = 2 (integers in range) getStats
raises, and a clamped comparison instance yields supplied min > max. -/
theorem c8_invalid_range_amended_witness :
    ((getStats (fun _ => 0) (some ((3 : ℤ) : ℚ)) (some ((2 : ℤ) : ℚ))).isOk = false)
    ∧ ((200 : ℚ) < 300) := by
  constructor
  · exact ((c8_invalid_range_amended (fun _ => 0) 0 1 1 3 2).2.2.2.2 3 2
      (by norm_num) (by norm_num) (by norm_num) (by norm_num)).mpr (by norm_num)
  · refine (c8_invalid_range_amended (fun _ => 0) 0 1 1 300 200).2.2.2.1 ?_
    have h3 : jsRound ((300 : ℚ)) = 300 := by
      have h := jsRound_intCast 300
      push_cast at h
      exact h
    have h2 : jsRound ((200 : ℚ)) = 200 := by
      have h := jsRound_intCast 200
      push_cast at h
      exact h
    rw [h3, h2]
    decide

/-- Rounding to 3 decimals first does not change the toFixed(3) rendering,
except in the negative-underflow window (-1/2000, 0) where the sign is lost. -/
theorem toFixed3_round3 (q : ℚ) (h : 0 ≤ q ∨ q ≤ -(1/2000)) :
    toFixed3 (round3 q) = toFixed3 q := by
  rcases h with h0 | h1
  · have hn : 0 ≤ jsRound (q * 1000) := Int.le_floor.mpr (by push_cast; linarith)
    have hr3 : round3 q = ((jsRound (q * 1000) : ℚ)) / 1000 := by
      unfold round3
      rw [if_neg (not_lt.mpr h0)]
    have hr3n : ¬ round3 q < 0 := by
      rw [hr3]
      push_neg
      have hc : (0 : ℚ) ≤ ((jsRound (q * 1000) : ℚ)) := by exact_mod_cast hn
      linarith
    unfold toFixed3
    rw [if_neg hr3n, if_neg (not_lt.mpr h0)]
    unfold toFixed3Nonneg
    have harg : round3 q * 1000 = ((jsRound (q * 1000) : ℚ)) := by
      rw [hr3]
      ring
    rw [harg, jsRound_intCast]
  · have hq0 : q < 0 := by linarith
    have hn : 1 ≤ jsRound (-q * 1000) := Int.le_floor.mpr (by push_cast; linarith)
    have hr3 : round3 q = -(((jsRound (-q * 1000) : ℚ)) / 1000) := by
      unfold round3
      rw [if_pos hq0]
    have hr3n : round3 q < 0 := by
      rw [hr3]
      have : (0 : ℚ) < ((jsRound (-q * 1000) : ℚ)) / 1000 := by
        have : (1 : ℚ) ≤ ((jsRound (-q * 1000) : ℚ)) := by exact_mod_cast hn
        linarith
      linarith
    unfold toFixed3
    rw [if_pos hr3n, if_pos hq0]
    unfold toFixed3Nonneg
    have harg : -(round3 q) * 1000 = ((jsRound (-q * 1000) : ℚ)) := by
      rw [hr3]
      ring
    rw [harg, jsRound_intCast]

/-- C9 counterexample: the exported fixed is not "toFixed(3) with a trailing
.000 stripped and no other transformation": at x = 1/2 (exactly representable)
it also strips the lone trailing zero and replaces the decimal point with a
comma-space, giving "0, 5" instead of "0.5".  Moreover fixed(x) =
fixed(round(x,3)) fails in the window (-0.0005, 0): at x = -1/10000 the
private fixed yields "-0" but round(x,3) = 0 renders as "0". -/
theorem c9_fixed_counterexample :
    fixedExported (1/2) = ['0', ',', ' ', '5']
    ∧ fixedPrivate (1/2) = ['0', '.', '5', '0', '0']
    ∧ fixedExported (1/2) ≠ fixedPrivate (1/2)
    ∧ fixedPrivate (-(1/10000)) = ['-', '0']
    ∧ round3 (-(1/10000)) = 0
    ∧ fixedPrivate (round3 (-(1/10000))) = ['0'] := by
  have hpos : ¬ ((1 : ℚ)/2 < 0) := by norm_num
  have h500 : jsRound ((1 : ℚ)/2 * 1000) = 500 := by
    unfold jsRound
    norm_num
  have htf : toFixed3 ((1 : ℚ)/2) = ['0', '.', '5', '0', '0'] := by
    unfold toFixed3
    rw [if_neg hpos]
    unfold toFixed3Nonneg
    rw [h500]
    decide
  have hneg : ((-(1/10000) : ℚ) < 0) := by norm_num
  have h0r : jsRound (-(-(1/10000) : ℚ) * 1000) = 0 := by
    unfold jsRound
    norm_num
  have htfneg : toFixed3 (-(1/10000) : ℚ) = ['-', '0', '.', '0', '0', '0'] := by
    unfold toFixed3
    rw [if_pos hneg]
    unfold toFixed3Nonneg
    rw [h0r]
    decide
  have hr3eval : round3 (-(1/10000) : ℚ) = 0 := by
    unfold round3
    rw [if_pos hneg, h0r]
    norm_num
  have h0' : jsRound ((0 : ℚ) * 1000) = 0 := by
    unfold jsRound
    norm_num
  have htf0 : toFixed3 (0 : ℚ) = ['0', '.', '0', '0', '0'] := by
    unfold toFixed3
    rw [if_neg (by norm_num)]
    unfold toFixed3Nonneg
    rw [h0']
    decide
  refine ⟨?_, ?_, ?_, ?_, hr3eval, ?_⟩
  · unfold fixedExported
    rw [htf]
    decide
  · unfold fixedPrivate
    rw [htf]
    decide
  · unfold fixedExported fixedPrivate
    rw [htf]
    decide
  · unfold fixedPrivate
    rw [htfneg]
    decide
  · rw [hr3eval]
    unfold fixedPrivate
    rw [htf0]
    decide

/-- C9 amended: the private fixed of the second document is toFixed(3) with
the trailing ".000" stripped; the exported fixed additionally strips one or
two trailing zeros and turns the decimal point into ", ".  The invariant
fixed(x) = fixed(round(x, 3)) holds for both variants for every x outside the
negative-underflow window (-0.0005, 0). -/
theorem c9_fixed_amended (q : ℚ) (h : 0 ≤ q ∨ q ≤ -(1/2000)) :
    fixedPrivate (round3 q) = fixedPrivate q
    ∧ fixedExported (round3 q) = fixedExported q := by
  have hcore := toFixed3_round3 q h
  unfold fixedPrivate fixedExported
  rw [hcore]
  exact ⟨rfl, rfl⟩

/-- C9 amended, witness: the invariant instantiated at x = 1/2. -/
theorem c9_fixed_amended_witness :
    fixedPrivate (round3 (1/2)) = fixedPrivate (1/2)
    ∧ fixedExported (round3 (1/2)) = fixedExported (1/2) :=
  c9_fixed_amended (1/2) (Or.inl (by norm_num))

/-- For natural bounds already inside [0, 255], normalizeMinMax is the
identity. -/
theorem normalizeMinMax_natCast (lmin lmax : ℕ) (h1 : lmin ≤ lmax) (h2 : lmax ≤ 255) :
    normalizeMinMax (some (lmin : ℚ)) (some (lmax : ℚ)) = .ok (lmin, lmax) := by
  simp only [normalizeMinMax]
  have ha : jsRound ((lmin : ℚ)) = (lmin : ℤ) := by
    have h := jsRound_intCast (lmin : ℤ)
    push_cast at h
    exact_mod_cast h
  have hb : jsRound ((lmax : ℚ)) = (lmax : ℤ) := by
    have h := jsRound_intCast (lmax : ℤ)
    push_cast at h
    exact_mod_cast h
  rw [ha, hb]
  have hcl1 : clampZ (lmin : ℤ) 0 255 = (lmin : ℤ) := by
    simp only [clampZ]
    omega
  have hcl2 : clampZ (lmax : ℤ) 0 255 = (lmax : ℤ) := by
    simp only [clampZ]
    omega
  rw [hcl1, hcl2, if_neg (by omega)]
  simp [Int.toNat_natCast]

/-- The window accumulator holds at least the bin's own count averaged over at
least one included bin. -/
theorem foldl_pair_mono (f : ℚ × ℕ → ℕ → ℚ × ℕ)
    (hf : ∀ fc j, fc.1 ≤ (f fc j).1 ∧ fc.2 ≤ (f fc j).2) :
    ∀ (L : List ℕ) (fc : ℚ × ℕ),
      fc.1 ≤ (L.foldl f fc).1 ∧ fc.2 ≤ (L.foldl f fc).2 := by
  intro L
  induction L with
  | nil => intro fc; exact ⟨le_refl _, le_refl _⟩
  | cons j t ih =>
      intro fc
      simp only [List.foldl_cons]
      obtain ⟨ih1, ih2⟩ := ih (f fc j)
      exact ⟨le_trans (hf fc j).1 ih1, le_trans (hf fc j).2 ih2⟩

/-- The window accumulator holds at least the bin's own count, averaged over at
least one included bin. -/
theorem windowAcc_bounds (d : ℕ → ℕ) (lmin lmax i tol : ℕ) :
    ((d i : ℚ)) ≤ (windowAcc d lmin lmax i tol).1
    ∧ 1 ≤ (windowAcc d lmin lmax i tol).2 := by
  unfold windowAcc
  refine foldl_pair_mono _ ?_ (List.range' 1 tol) ((d i : ℚ), 1)
  intro fc j
  dsimp only
  split_ifs <;> constructor <;> dsimp only <;>
    first
    | linarith [@Nat.cast_nonneg ℚ _ (d (i - j)), @Nat.cast_nonneg ℚ _ (d (i + j))]
    | omega

/-- A bin with nonzero own count has a positive windowed average. -/
theorem windowAvg_pos (d : ℕ → ℕ) (lmin lmax tol i : ℕ) (hd : d i ≠ 0) :
    0 < windowAvg d lmin lmax tol i := by
  obtain ⟨h1, h2⟩ := windowAcc_bounds d lmin lmax i tol
  unfold windowAvg
  apply div_pos
  · have : (0 : ℚ) < (d i : ℚ) := by
      exact_mod_cast Nat.pos_of_ne_zero hd
    linarith
  · exact_mod_cast lt_of_lt_of_le Nat.zero_lt_one h2

/-- One scan step preserves the dominant-color invariant. -/
theorem dominantStep_inv (d : ℕ → ℕ) (lmin lmax tol a : ℕ) (st : ℤ × ℚ)
    (ha : lmin ≤ a) (hinv : DominantInv d lmin lmax tol a st) :
    DominantInv d lmin lmax tol (a + 1) (dominantStep d lmin lmax tol st a) := by
  unfold dominantStep
  by_cases hd : d a = 0
  · rw [if_pos hd]
    rcases hinv with ⟨hst, hz⟩ | ⟨b, hb1, hb2, hb3, hb4, hb5, hb6, hb7, hb8⟩
    · left
      refine ⟨hst, fun i hi1 hi2 => ?_⟩
      rcases Nat.lt_succ_iff_lt_or_eq.mp hi2 with h | rfl
      · exact hz i hi1 h
      · exact hd
    · right
      refine ⟨b, hb1, Nat.lt_succ_of_lt hb2, hb3, hb4, hb5, hb6, ?_, ?_⟩
      · intro j hj1 hj2 hj3
        rcases Nat.lt_succ_iff_lt_or_eq.mp hj2 with h | rfl
        · exact hb7 j hj1 h hj3
        · exact absurd hd hj3
      · intro j hj1 hj2 hj3 hj4
        rcases Nat.lt_succ_iff_lt_or_eq.mp hj2 with h | rfl
        · exact hb8 j hj1 h hj3 hj4
        · exact absurd hd hj3
  · rw [if_neg hd]
    have hpos := windowAvg_pos d lmin lmax tol a hd
    have hfreq : (windowAcc d lmin lmax a tol).1 / ((windowAcc d lmin lmax a tol).2 : ℚ)
        = windowAvg d lmin lmax tol a := rfl
    by_cases hgt : (windowAcc d lmin lmax a tol).1 / ((windowAcc d lmin lmax a tol).2 : ℚ) > st.2
    · simp only [hfreq] at hgt ⊢
      rw [if_pos hgt]
      right
      refine ⟨a, ha, Nat.lt_succ_self a, rfl, hd, rfl, hpos, ?_, ?_⟩
      · intro j hj1 hj2 hj3
        rcases Nat.lt_succ_iff_lt_or_eq.mp hj2 with h | rfl
        · rcases hinv with ⟨hst, hz⟩ | ⟨b, _, _, _, _, _, _, hb7, _⟩
          · exact absurd (hz j hj1 h) hj3
          · exact le_of_lt (lt_of_le_of_lt (hb7 j hj1 h hj3) hgt)
        · exact le_refl _
      · intro j hj1 hj2 hj3 hj4
        have h : j < a := hj4
        rcases hinv with ⟨hst, hz⟩ | ⟨b, _, _, _, _, _, _, hb7, _⟩
        · exact absurd (hz j hj1 h) hj3
        · exact lt_of_le_of_lt (hb7 j hj1 h hj3) hgt
    · simp only [hfreq] at hgt ⊢
      rw [if_neg hgt]
      rcases hinv with ⟨hst, hz⟩ | ⟨b, hb1, hb2, hb3, hb4, hb5, hb6, hb7, hb8⟩
      · exfalso
        have : st.2 = 0 := by rw [hst]
        rw [this] at hgt
        exact hgt hpos
      · right
        refine ⟨b, hb1, Nat.lt_succ_of_lt hb2, hb3, hb4, hb5, hb6, ?_, ?_⟩
        · intro j hj1 hj2 hj3
          rcases Nat.lt_succ_iff_lt_or_eq.mp hj2 with h | rfl
          · exact hb7 j hj1 h hj3
          · exact not_lt.mp hgt
        · intro j hj1 hj2 hj3 hj4
          rcases Nat.lt_succ_iff_lt_or_eq.mp hj2 with h | rfl
          · exact hb8 j hj1 h hj3 hj4
          · exact absurd hj4 (by omega)

/-- The whole scan preserves the invariant. -/
theorem dominantFold_inv (d : ℕ → ℕ) (lmin lmax tol : ℕ) :
    ∀ (n a : ℕ) (st : ℤ × ℚ), lmin ≤ a →
      DominantInv d lmin lmax tol a st →
      DominantInv d lmin lmax tol (a + n)
        ((List.range' a n).foldl (dominantStep d lmin lmax tol) st) := by
  intro n
  induction n with
  | zero => intro a st _ hinv; simpa using hinv
  | succ k ih =>
      intro a st ha hinv
      rw [List.range'_succ]
      simp only [List.foldl_cons]
      have hnext := dominantStep_inv d lmin lmax tol a st ha hinv
      have := ih (a + 1) (dominantStep d lmin lmax tol st a) (by omega) hnext
      have harith : a + 1 + k = a + (k + 1) := by omega
      rwa [harith] at this

/-- C7 amended: getDominantColor scans the bins with NONZERO own count and
ranks them by the window total divided by the number of included bins (an
average, not the raw sum); the returned bin is the lowest-index bin attaining
the strict maximum of that average (an equal later average never displaces the
current best, regardless of own-bin counts); the result is -1 exactly when no
pixel of the range occurs. -/
theorem c7_dominant_amended (d : ℕ → ℕ) (lmin lmax tol : ℕ)
    (h1 : lmin ≤ lmax) (h2 : lmax ≤ 255) :
    ∃ r : ℤ, getDominantColor d (some (lmin : ℚ)) (some (lmax : ℚ)) tol = .ok r
      ∧ (r = -1 ↔ ∀ i, lmin ≤ i → i ≤ lmax → d i = 0)
      ∧ (r ≠ -1 → ∃ b : ℕ, r = (b : ℤ) ∧ lmin ≤ b ∧ b ≤ lmax ∧ d b ≠ 0
          ∧ (∀ j, lmin ≤ j → j ≤ lmax → d j ≠ 0 →
              windowAvg d lmin lmax tol j ≤ windowAvg d lmin lmax tol b)
          ∧ (∀ j, lmin ≤ j → j ≤ lmax → d j ≠ 0 → j < b →
              windowAvg d lmin lmax tol j < windowAvg d lmin lmax tol b)) := by
  have hinv0 : DominantInv d lmin lmax tol lmin (-1, 0) :=
    Or.inl ⟨rfl, fun i hi1 hi2 => absurd hi1 (by omega)⟩
  have hfin := dominantFold_inv d lmin lmax tol (lmax + 1 - lmin) lmin (-1, 0)
    (le_refl lmin) hinv0
  have harith : lmin + (lmax + 1 - lmin) = lmax + 1 := by omega
  rw [harith] at hfin
  refine ⟨((List.range' lmin (lmax + 1 - lmin)).foldl
    (dominantStep d lmin lmax tol) (-1, 0)).1, ?_, ?_, ?_⟩
  · unfold getDominantColor
    rw [normalizeMinMax_natCast lmin lmax h1 h2]
  · constructor
    · intro hr
      rcases hfin with ⟨hst, hz⟩ | ⟨b, _, _, hb3, hb4, _⟩
      · intro i hi1 hi2
        exact hz i hi1 (by omega)
      · exfalso
        rw [hb3] at hr
        omega
    · intro hz
      rcases hfin with ⟨hst, _⟩ | ⟨b, hb1, hb2, _, hb4, _⟩
      · rw [hst]
      · exact absurd (hz b hb1 (by omega)) hb4
  · intro hr
    rcases hfin with ⟨hst, _⟩ | ⟨b, hb1, hb2, hb3, hb4, hb5, hb6, hb7, hb8⟩
    · exfalso
      rw [hst] at hr
      exact hr rfl
    · refine ⟨b, hb3, hb1, by omega, hb4, ?_, ?_⟩
      · intro j hj1 hj2 hj3
        have := hb7 j hj1 (by omega) hj3
        rwa [hb5] at this
      · intro j hj1 hj2 hj3 hj4
        have := hb8 j hj1 (by omega) hj3 hj4
        rwa [hb5] at this

/-- C7 amended, witness: the characterization instantiated at the histogram
with d(10)=1, d(11)=2 on the range [9,12] with tolerance 1. -/
theorem c7_dominant_amended_witness :
    ∃ r : ℤ, getDominantColor (fun c => if c = 10 then 1 else if c = 11 then 2 else 0)
        (some ((9 : ℕ) : ℚ)) (some ((12 : ℕ) : ℚ)) 1 = .ok r
      ∧ (r = -1 ↔ ∀ i, 9 ≤ i → i ≤ 12 →
          (fun c => if c = 10 then 1 else if c = 11 then 2 else 0) i = 0)
      ∧ (r ≠ -1 → ∃ b : ℕ, r = (b : ℤ) ∧ 9 ≤ b ∧ b ≤ 12
          ∧ (fun c => if c = 10 then 1 else if c = 11 then 2 else 0) b ≠ 0
          ∧ (∀ j, 9 ≤ j → j ≤ 12 →
              (fun c => if c = 10 then 1 else if c = 11 then 2 else 0) j ≠ 0 →
              windowAvg (fun c => if c = 10 then 1 else if c = 11 then 2 else 0) 9 12 1 j
                ≤ windowAvg (fun c => if c = 10 then 1 else if c = 11 then 2 else 0) 9 12 1 b)
          ∧ (∀ j, 9 ≤ j → j ≤ 12 →
              (fun c => if c = 10 then 1 else if c = 11 then 2 else 0) j ≠ 0 → j < b →
              windowAvg (fun c => if c = 10 then 1 else if c = 11 then 2 else 0) 9 12 1 j
                < windowAvg (fun c => if c = 10 then 1 else if c = 11 then 2 else 0) 9 12 1 b)) :=
  c7_dominant_amended (fun c => if c = 10 then 1 else if c = 11 then 2 else 0) 9 12 1
    (by norm_num) (by norm_num)

/-- C7 counterexample: on the histogram with d(10)=1, d(11)=2 over the range
[9,12] with tolerance 1, bins 10 and 11 tie on the claimed window SUM (both 3,
with every other bin strictly below), and the claim's tie-break by larger
own-bin count prescribes bin 11 (d(11)=2 > d(10)=1) — but getDominantColor
returns 10: it ranks bins by the window average and keeps the earlier bin on a
tie, with no own-count tie-break. -/
theorem c7_dominant_counterexample :
    getDominantColor c7Histogram (some ((9 : ℕ) : ℚ)) (some ((12 : ℕ) : ℚ)) 1
      = .ok 10
    ∧ windowSum c7Histogram 9 12 1 10 = 3
    ∧ windowSum c7Histogram 9 12 1 11 = 3
    ∧ windowSum c7Histogram 9 12 1 9 = 1
    ∧ windowSum c7Histogram 9 12 1 12 = 2
    ∧ c7Histogram 10 = 1 ∧ c7Histogram 11 = 2 := by
  have hacc10 : windowAcc c7Histogram 9 12 10 1 = (3, 3) := by
    simp [windowAcc, List.range', c7Histogram, List.foldl]
    norm_num
  have hacc11 : windowAcc c7Histogram 9 12 11 1 = (3, 3) := by
    simp [windowAcc, List.range', c7Histogram, List.foldl]
    norm_num
  have h9 : dominantStep c7Histogram 9 12 1 (-1, 0) 9 = (-1, 0) := by
    simp [dominantStep, c7Histogram]
  have h10 : dominantStep c7Histogram 9 12 1 (-1, 0) 10 = (10, 1) := by
    simp only [dominantStep]
    rw [if_neg (by simp [c7Histogram])]
    simp only [hacc10]
    rw [if_pos (by norm_num)]
    norm_num
  have h11 : dominantStep c7Histogram 9 12 1 (10, 1) 11 = (10, 1) := by
    simp only [dominantStep]
    rw [if_neg (by simp [c7Histogram])]
    simp only [hacc11]
    rw [if_neg (by norm_num)]
  have h12 : dominantStep c7Histogram 9 12 1 (10, 1) 12 = (10, 1) := by
    simp [dominantStep, c7Histogram]
  refine ⟨?_, by decide, by decide, by decide, by decide, by decide, by decide⟩
  unfold getDominantColor
  rw [normalizeMinMax_natCast 9 12 (by norm_num) (by norm_num)]
  dsimp only
  have hr : List.range' 9 (12 + 1 - 9) = [9, 10, 11, 12] := by decide
  rw [hr]
  simp only [List.foldl_cons, List.foldl_nil, h9, h10, h11, h12]

/-- When every level ≥ 1 contributes nothing (no pixels at all, or all pixels
at level 0 — level 0 never enters the P/S tables), row 1 of P vanishes. -/
theorem P1_zero (d : ℕ → ℕ) (pixels : ℕ)
    (hz : ∀ c, 1 ≤ c → (d c : ℚ) / (pixels : ℚ) = 0) :
    ∀ j, P1 d pixels j = 0 := by
  intro j
  induction j with
  | zero => rfl
  | succ k ih =>
      show P1 d pixels k + (d (k+1) : ℚ) / (pixels : ℚ) = 0
      rw [ih, hz (k+1) (by omega)]
      ring

/-- Same hypothesis kills row 1 of S. -/
theorem S1_zero (d : ℕ → ℕ) (pixels : ℕ)
    (hz : ∀ c, 1 ≤ c → (d c : ℚ) / (pixels : ℚ) = 0) :
    ∀ j, S1 d pixels j = 0 := by
  intro j
  induction j with
  | zero => rfl
  | succ k ih =>
      show S1 d pixels k + ((k+1 : ℕ) : ℚ) * ((d (k+1) : ℚ) / (pixels : ℚ)) = 0
      rw [ih, hz (k+1) (by omega)]
      ring

/-- Same hypothesis kills the whole H table. -/
theorem Htab_zero (d : ℕ → ℕ) (pixels : ℕ)
    (hz : ∀ c, 1 ≤ c → (d c : ℚ) / (pixels : ℚ) = 0) :
    ∀ i j, Htab d pixels i j = 0 := by
  intro i j
  unfold Htab
  split_ifs with hg hp
  · exfalso
    apply hp
    unfold Ptab
    rw [if_neg (Nat.ne_of_lt hg.2.1)]
    rw [P1_zero d pixels hz, P1_zero d pixels hz]
    ring
  · rfl
  · rfl

/-- With a zero H table every candidate's variance is zero. -/
theorem segmentsVariance_zero (H : ℕ → ℕ → ℚ) (lmax : ℕ)
    (hH : ∀ i j, H i j = 0) : ∀ l, segmentsVariance H lmax l = 0 := by
  intro l
  induction l with
  | nil => rfl
  | cons e rest ih =>
      cases rest with
      | nil => simp [segmentsVariance, hH]
      | cons e2 r2 =>
          show H (e+1) e2 + segmentsVariance H lmax (e2 :: r2) = 0
          rw [hH, ih]
          ring

/-- With a zero H table the total variance of any candidate is zero. -/
theorem totalVariance_zero (H : ℕ → ℕ → ℚ) (lmax : ℕ)
    (hH : ∀ i j, H i j = 0) : ∀ idxs, totalVariance H lmax idxs = 0 := by
  intro idxs
  cases idxs with
  | nil => rfl
  | cons e rest =>
      show H 1 e + segmentsVariance H lmax (e :: rest) = 0
      rw [hH, segmentsVariance_zero H lmax hH]
      ring

/-- With a zero H table (and a state whose maxSig dominates the incoming
variance and is nonnegative) the enumeration never updates the state. -/
theorem iterateRecursive_zeroH (H : ℕ → ℕ → ℚ) (lmax : ℕ)
    (hH : ∀ i j, H i j = 0) :
    ∀ (r sp : ℕ) (pv : ℚ) (idx : List ℕ) (st : ThState),
      pv ≤ st.maxSig → 0 ≤ st.maxSig →
      iterateRecursive H lmax r sp pv idx st = st := by
  intro r
  induction r with
  | zero =>
      intro sp pv idx st hpv h0
      simp only [iterateRecursive]
      rw [if_neg (not_lt.mpr hpv)]
  | succ k ih =>
      intro sp pv idx st hpv h0
      simp only [iterateRecursive]
      have hbody : ∀ i, iterateRecursive H lmax k i
          (totalVariance H lmax (idx ++ [i])) (idx ++ [i]) st = st := by
        intro i
        apply ih
        · rw [totalVariance_zero H lmax hH]
          exact h0
        · exact h0
      have hfold : ∀ (L : List ℕ),
          L.foldl (fun acc i => iterateRecursive H lmax k i
            (totalVariance H lmax (idx ++ [i])) (idx ++ [i]) acc) st = st := by
        intro L
        induction L with
        | nil => rfl
        | cons i t iht =>
            simp only [List.foldl_cons]
            rw [hbody i]
            exact iht
      exact hfold _

/-- The enumeration only ever records well-formed candidates: strictly
increasing tuples inside [lb+1, lmax-1] of full length. -/
theorem iterateRecursive_ok (H : ℕ → ℕ → ℚ) (lmax lb amount : ℕ) :
    ∀ (r sp : ℕ) (pv : ℚ) (idx : List ℕ) (st : ThState),
      lb ≤ sp →
      idx.Chain' (· < ·) →
      (∀ x ∈ idx, lb + 1 ≤ x ∧ x ≤ lmax - 1 ∧ x ≤ sp) →
      idx.length + r = amount →
      ThStateOk lb lmax amount st →
      ThStateOk lb lmax amount (iterateRecursive H lmax r sp pv idx st) := by
  intro r
  induction r with
  | zero =>
      intro sp pv idx st hsp hch hbd hlen hst
      simp only [iterateRecursive]
      split_ifs with h
      · intro l hl
        simp only at hl
        injection hl with hl
        subst hl
        exact ⟨hch, fun x hx => ⟨(hbd x hx).1, (hbd x hx).2.1⟩, by simpa using hlen⟩
      · exact hst
  | succ k ih =>
      intro sp pv idx st hsp hch hbd hlen hst
      simp only [iterateRecursive]
      have hgen : ∀ (L : List ℕ) (st : ThState), (∀ i ∈ L, sp < i ∧ i < lmax) →
          ThStateOk lb lmax amount st →
          ThStateOk lb lmax amount (L.foldl (fun acc i =>
            iterateRecursive H lmax k i
              (totalVariance H lmax (idx ++ [i])) (idx ++ [i]) acc) st) := by
        intro L
        induction L with
        | nil => intro st _ hst; exact hst
        | cons i t iht =>
            intro st hiL hst
            simp only [List.foldl_cons]
            have hi := hiL i (List.mem_cons_self i t)
            apply iht
            · intro x hx
              exact hiL x (List.mem_cons_of_mem i hx)
            · apply ih i (totalVariance H lmax (idx ++ [i])) (idx ++ [i]) st
              · omega
              · rw [List.chain'_append]
                refine ⟨hch, List.chain'_singleton i, ?_⟩
                intro x hx y hy
                simp only [List.head?_cons, Option.mem_some_iff] at hy
                subst hy
                have hxmem : x ∈ idx := List.mem_of_mem_getLast? hx
                have := (hbd x hxmem).2.2
                omega
              · intro x hx
                rcases List.mem_append.mp hx with hx1 | hx1
                · have := hbd x hx1
                  exact ⟨this.1, this.2.1, by omega⟩
                · simp only [List.mem_singleton] at hx1
                  subst hx1
                  refine ⟨by omega, by omega, le_refl x⟩
              · simp only [List.length_append, List.length_singleton]
                omega
              · exact hst
      apply hgen
      · intro i hi
        rw [List.mem_range'] at hi
        omega
      · exact hst

/-- C2 counterexample: the histogram with 5 pixels, all at level 0, over the
range [0, 5] with k = 1: k' = min(1, 5-0-2) = 1 ≥ 1 and pixels are present,
yet multilevelThresholding returns [] — level 0 never enters the P/S/H
tables, so every candidate's variance is 0 and never strictly exceeds the
initial maxSig = 0.  This refutes "returns the empty list exactly when k' < 1
or the histogram contains no pixels" and with it the claimed length k'. -/
theorem c2_multilevel_counterexample :
    multilevelThresholding (fun c => if c = 0 then 5 else 0) 5 1
        (some ((0 : ℕ) : ℚ)) (some ((5 : ℕ) : ℚ)) = .ok []
    ∧ (1 : ℤ) ≤ min ((5 : ℤ) - (0 : ℤ) - 2) ⌊(1 : ℚ)⌋
    ∧ (0 : ℕ) < 5 := by
  have hz : ∀ c, 1 ≤ c →
      (((fun c => if c = 0 then 5 else 0) c : ℕ) : ℚ) / ((5 : ℕ) : ℚ) = 0 := by
    intro c hc
    show (((if c = 0 then 5 else 0 : ℕ)) : ℚ) / ((5 : ℕ) : ℚ) = 0
    rw [if_neg (by omega : ¬ c = 0)]
    norm_num
  have hH := Htab_zero (fun c => if c = 0 then 5 else 0) 5 hz
  refine ⟨?_, by norm_num, by norm_num⟩
  unfold multilevelThresholding
  rw [normalizeMinMax_natCast 0 5 (by norm_num) (by norm_num)]
  dsimp only
  rw [if_neg (by push_cast; norm_num)]
  rw [iterateRecursive_zeroH (Htab (fun c => if c = 0 then 5 else 0) 5) 5 hH _ _ _ _ _
    (le_refl 0) (le_refl 0)]
  rfl

/-- C2 amended: for a valid range inside [0, 255] multilevelThresholding never
raises, and its result is either [] or a strictly increasing list of length
k' = min(k, max-min-2) with all elements in [min+1, max-1]; it returns []
whenever k' < 1 or the histogram has no pixels — but [] is NOT returned
exactly then: with pixels present it can still be returned (see the
counterexample with all pixels at level min). -/
theorem c2_multilevel_amended (d : ℕ → ℕ) (pixels : ℕ) (amount : ℚ)
    (lmin lmax : ℕ) (h1 : lmin ≤ lmax) (h2 : lmax ≤ 255) :
    ∃ r : List ℕ,
      multilevelThresholding d pixels amount (some (lmin : ℚ)) (some (lmax : ℚ)) = .ok r
      ∧ (r = [] ∨ GoodStops lmin lmax
          (min ((lmax : ℤ) - (lmin : ℤ) - 2) ⌊amount⌋).toNat r)
      ∧ ((min ((lmax : ℤ) - (lmin : ℤ) - 2) ⌊amount⌋ < 1 ∨ pixels = 0) → r = []) := by
  unfold multilevelThresholding
  rw [normalizeMinMax_natCast lmin lmax h1 h2]
  dsimp only
  by_cases hlt : min ((lmax : ℤ) - (lmin : ℤ) - 2) ⌊amount⌋ < 1
  · rw [if_pos hlt]
    exact ⟨[], rfl, Or.inl rfl, fun _ => rfl⟩
  · rw [if_neg hlt]
    refine ⟨_, rfl, ?_, ?_⟩
    · have hok := iterateRecursive_ok (Htab d pixels) lmax lmin
        (min ((lmax : ℤ) - (lmin : ℤ) - 2) ⌊amount⌋).toNat
        (min ((lmax : ℤ) - (lmin : ℤ) - 2) ⌊amount⌋).toNat
        lmin 0 [] ⟨0, none⟩ (le_refl lmin) List.chain'_nil
        (by intro x hx; exact absurd hx (List.not_mem_nil x))
        (by simp)
        (by intro l hl; exact absurd hl (by simp))
      cases hcs : (iterateRecursive (Htab d pixels) lmax
          (min ((lmax : ℤ) - (lmin : ℤ) - 2) ⌊amount⌋).toNat
          lmin 0 [] ⟨0, none⟩).colorStops with
      | none => left; simp [hcs]
      | some l =>
          right
          have hgood := hok l hcs
          simpa [hcs] using hgood
    · rintro (h | h)
      · exact absurd h hlt
      · have hz : ∀ c, 1 ≤ c → (d c : ℚ) / (pixels : ℚ) = 0 := by
          intro c _
          rw [h]
          norm_num
        rw [iterateRecursive_zeroH (Htab d pixels) lmax (Htab_zero d pixels hz)
          _ _ _ _ _ (le_refl 0) (le_refl 0)]
        rfl

/-- C2 amended, witness: instantiated at the all-at-level-0 histogram with
k = 1 over [0, 5]. -/
theorem c2_multilevel_amended_witness :
    ∃ r : List ℕ,
      multilevelThresholding (fun c => if c = 0 then 5 else 0) 5 1
          (some ((0 : ℕ) : ℚ)) (some ((5 : ℕ) : ℚ)) = .ok r
      ∧ (r = [] ∨ GoodStops 0 5 (min ((5 : ℤ) - (0 : ℤ) - 2) ⌊(1 : ℚ)⌋).toNat r)
      ∧ ((min ((5 : ℤ) - (0 : ℤ) - 2) ⌊(1 : ℚ)⌋ < 1 ∨ (5 : ℕ) = 0) → r = []) :=
  c2_multilevel_amended (fun c => if c = 0 then 5 else 0) 5 1 0 5
    (by norm_num) (by norm_num)

end TsPotrace
